import Mathlib

/-!
# Verification of the gomoku-next game core

Shallow embedding of the game core of the `gomoku-next` repository
(`src/game/Board.ts`, `src/game/ItemSystem.ts`, `src/game/GomokuGame.ts`,
`src/game/types.ts`) and proofs about it.

Modelling conventions:
* TypeScript `number` coordinates are embedded as `Int` (they may be negative
  during direction walks); counters are embedded as `Int` as well so that
  differences such as `extraMovesEarned - extraMovesUsed` are exact.
* `Math.random()`-driven choices are threaded explicitly: each operation that
  draws randomness receives the drawn values as parameters (indexes are taken
  modulo the length of the sampled pool, matching `Math.floor(Math.random()*n)`
  which always lands in `[0, n)`).
* `Date.now()` timestamps and generated event ids are likewise threaded as
  explicit parameters.
* Timer handles (`aiTimer`, `notificationTimer`, `itemNameDisplayTimer`),
  the `isAiCalculating` flag and the change-notification callback list are
  real-time / observer plumbing with no influence on the game rules; they are
  not part of the embedded state.  `setTimeout`-scheduled AI replies are
  asynchronous continuations, so `makeMove` is embedded as its synchronous
  state transformation (exactly what the function itself mutates before
  returning), and `makeAIMove` as one invocation of the AI step.
* JavaScript `Map<Player, _>` containers always hold exactly the two players
  here; they are embedded as a two-field record `PlayerMap`.
-/

namespace Gomoku

/-- `Player` enum from `types.ts`. -/
inductive Player where
  | black
  | white
deriving DecidableEq, Repr

/-- The other player (the `p === BLACK ? WHITE : BLACK` idiom). -/
def Player.opponent : Player → Player
  | .black => .white
  | .white => .black

/-- `GameState` enum from `types.ts`. -/
inductive GameState where
  | ready
  | playing
  | paused
  | over
deriving DecidableEq, Repr

/-- `GameSubState` enum from `types.ts`. -/
inductive GameSubState where
  | normal
  | selectingStrikeTarget
  | showingItemName
  | showingStrategyGuide
  | handSlipPenalty
deriving DecidableEq, Repr

/-- `GameMode` enum from `types.ts`. -/
inductive GameMode where
  | pvp
  | pve
deriving DecidableEq, Repr

/-- `ItemType` enum from `types.ts`, in declaration order. -/
inductive ItemType where
  | chaosStrike
  | preciseStrike
  | acceleratedMove
  | strategyGuide
  | toughenHeart
  | selfMistake
  | opponentAcceleration
  | slipPenalty
deriving DecidableEq, Repr

/-- `ItemEffectType` enum from `types.ts`. -/
inductive ItemEffectType where
  | instant
  | delayed
  | continuous
deriving DecidableEq, Repr

/-- `MoveEventType` enum from `types.ts`. -/
inductive MoveEventType where
  | normalMove
  | extraMove
  | itemTrigger
deriving DecidableEq, Repr

/-- `Position` interface from `types.ts` (coordinates are JS numbers, which
may be out of range or negative; embedded as `Int`). -/
structure Position where
  x : Int
  y : Int
deriving DecidableEq, Repr

/-- `Move` interface from `types.ts`. -/
structure Move where
  position : Position
  player : Player
  timestamp : Nat
deriving DecidableEq, Repr

/-- `GameResult` interface from `types.ts`. -/
structure GameResult where
  winner : Option Player
  winningLine : List Position
deriving DecidableEq, Repr

/-- Two-player map, embedding `Map<Player, α>` containers that always hold
exactly the two players. -/
structure PlayerMap (α : Type) where
  black : α
  white : α
deriving DecidableEq, Repr

/-- `map.get(player)`. -/
def PlayerMap.get {α : Type} (m : PlayerMap α) : Player → α
  | .black => m.black
  | .white => m.white

/-- `map.set(player, value)`. -/
def PlayerMap.set {α : Type} (m : PlayerMap α) : Player → α → PlayerMap α
  | .black, v => { m with black := v }
  | .white, v => { m with white := v }

@[simp] theorem PlayerMap.get_set_same {α : Type} (m : PlayerMap α) (p : Player) (v : α) :
    (m.set p v).get p = v := by
  cases p <;> rfl

@[simp] theorem PlayerMap.get_set_other {α : Type} (m : PlayerMap α) (p q : Player) (v : α)
    (h : p ≠ q) : (m.set p v).get q = m.get q := by
  cases p <;> cases q <;> simp_all [PlayerMap.set, PlayerMap.get]

/-! ## Board (`src/game/Board.ts`) -/

/-- The `Board` class state: `size`, `grid[y][x]` of `Player | null`, and the
`moves` array (pushed at the end, popped from the end). -/
structure Board where
  size : Nat
  grid : List (List (Option Player))
  moves : List Move
deriving DecidableEq, Repr

/-- `initializeGrid()`: a `size × size` grid of `null`. -/
def initializeGrid (size : Nat) : List (List (Option Player)) :=
  List.replicate size (List.replicate size none)

/-- The `Board` constructor. -/
def Board.mkBoard (size : Nat) : Board :=
  { size := size, grid := initializeGrid size, moves := [] }

/-- `Board.isValidPosition`. -/
def Board.isValidPosition (b : Board) (p : Position) : Bool :=
  decide (0 ≤ p.x) && decide (p.x < (b.size : Int)) &&
  decide (0 ≤ p.y) && decide (p.y < (b.size : Int))

/-- Raw read of `this.grid[position.y][position.x]` (out-of-range JS indexing
yields `undefined`; all call sites are bounds-guarded, and `getD` defaults are
never reached on well-formed boards). -/
def Board.cellAt (b : Board) (p : Position) : Option Player :=
  (b.grid.getD p.y.toNat []).getD p.x.toNat none

/-- Functional update of `this.grid[position.y][position.x] = v`. -/
def Board.setCell (b : Board) (p : Position) (v : Option Player) : Board :=
  { b with grid := b.grid.set p.y.toNat ((b.grid.getD p.y.toNat []).set p.x.toNat v) }

/-- `Board.isEmpty`: `false` for out-of-bounds, else the cell is `null`. -/
def Board.isEmpty (b : Board) (p : Position) : Bool :=
  b.isValidPosition p && (b.cellAt p == none)

/-- `Board.getStone`: `null` for out-of-bounds, else the cell. -/
def Board.getStone (b : Board) (p : Position) : Option Player :=
  if b.isValidPosition p then b.cellAt p else none

/-- `Board.placeStone`: fails on a non-empty (or invalid) cell, else writes the
stone and pushes a `Move` (with the `Date.now()` timestamp threaded as `now`).
Returns the `boolean` result together with the updated board. -/
def Board.placeStone (b : Board) (p : Position) (player : Player) (now : Nat) :
    Bool × Board :=
  if ¬ b.isEmpty p then
    (false, b)
  else
    (true,
      { b.setCell p (some player) with
        moves := b.moves ++ [{ position := p, player := player, timestamp := now }] })

/-- `Board.getMoves` (returns a copy; in the pure embedding this is the list
itself). -/
def Board.getMoves (b : Board) : List Move :=
  b.moves

/-- `Board.undoMove`: pops the last move (if any) and clears its cell. -/
def Board.undoMove (b : Board) : Option Move × Board :=
  match b.moves.getLast? with
  | none => (none, b)
  | some lastMove =>
      (some lastMove,
        { b.setCell lastMove.position none with moves := b.moves.dropLast })

/-- `Board.removeStone`: fails for out-of-bounds or already-empty cells, else
clears the cell.  The `moves` array is never touched. -/
def Board.removeStone (b : Board) (p : Position) : Bool × Board :=
  if ¬ b.isValidPosition p then
    (false, b)
  else if b.cellAt p == none then
    (false, b)
  else
    (true, b.setCell p none)

/-- `Board.reset`: clears grid and move stack; size unchanged. -/
def Board.reset (b : Board) : Board :=
  { b with grid := initializeGrid b.size, moves := [] }

/-- Well-formedness of the grid representation: `size` rows of `size` cells.
The TypeScript constructor establishes this and every mutation preserves it. -/
def Board.WF (b : Board) : Prop :=
  b.grid.length = b.size ∧ ∀ row ∈ b.grid, row.length = b.size

instance (b : Board) : Decidable b.WF := by
  unfold Board.WF
  infer_instance

/-! ## ItemSystem (`src/game/ItemSystem.ts`) -/

/-- `ItemEffect` interface from `types.ts`. -/
structure ItemEffect where
  type : ItemEffectType
  duration : Option Nat
  description : String
deriving DecidableEq, Repr

/-- `ItemInfo` interface from `types.ts`. -/
structure ItemInfo where
  type : ItemType
  name : String
  description : String
  effect : ItemEffect
  isStrengthening : Bool
  icon : String
deriving DecidableEq, Repr

/-- `ITEM_INFO_MAP` from `ItemSystem.ts`, field for field.  Note that the
source marks `SLIP_PENALTY` with `isStrengthening: true` even though it is
declared under the `// 弱化类道具` (weakening items) comment block. -/
def ITEM_INFO_MAP : ItemType → ItemInfo
  | .chaosStrike =>
    { type := .chaosStrike, name := "混沌打击",
      description := "随机移除对手的1颗棋子",
      effect := { type := .instant, duration := none,
                  description := "随机移除对手的1颗棋子" },
      isStrengthening := true, icon := "⚡" }
  | .preciseStrike =>
    { type := .preciseStrike, name := "精准打击",
      description := "允许玩家指定移除对手的1颗棋子",
      effect := { type := .delayed, duration := none,
                  description := "允许玩家指定移除对手的1颗棋子" },
      isStrengthening := true, icon := "🎯" }
  | .acceleratedMove =>
    { type := .acceleratedMove, name := "加速落子",
      description := "使玩家在本回合获得额外1次落子机会",
      effect := { type := .instant, duration := none,
                  description := "获得额外1次落子机会" },
      isStrengthening := true, icon := "🚀" }
  | .strategyGuide =>
    { type := .strategyGuide, name := "策略指引",
      description := "额外获得1次落子机会，并且系统将推荐3个最优落子位置",
      effect := { type := .delayed, duration := none,
                  description := "获得额外落子机会并显示3个最优落子位置" },
      isStrengthening := true, icon := "🧠" }
  | .toughenHeart =>
    { type := .toughenHeart, name := "钢化我心",
      description := "使玩家免疫下一次对手发起的移除类攻击",
      effect := { type := .continuous, duration := some 1,
                  description := "免疫下一次移除类攻击" },
      isStrengthening := true, icon := "🛡️" }
  | .selfMistake =>
    { type := .selfMistake, name := "自我失误",
      description := "随机移除玩家自己的1颗棋子",
      effect := { type := .instant, duration := none,
                  description := "随机移除自己的1颗棋子" },
      isStrengthening := false, icon := "💥" }
  | .opponentAcceleration =>
    { type := .opponentAcceleration, name := "对手加速",
      description := "使对手在本回合获得额外1次落子机会",
      effect := { type := .instant, duration := none,
                  description := "对手获得额外1次落子机会" },
      isStrengthening := false, icon := "⚡" }
  | .slipPenalty =>
    { type := .slipPenalty, name := "手滑惩罚",
      description := "限制对手下一回合只能从系统随机给出的3个位置中选择1个落子",
      effect := { type := .continuous, duration := some 1,
                  description := "对手只能从3个随机位置中选择落子" },
      isStrengthening := true, icon := "🤦" }

/-- `this.availableItems = Object.values(ItemType)` — declaration order. -/
def availableItems : List ItemType :=
  [.chaosStrike, .preciseStrike, .acceleratedMove, .strategyGuide,
   .toughenHeart, .selfMistake, .opponentAcceleration, .slipPenalty]

/-- `this.strengtheningItems`: the items whose `ITEM_INFO_MAP` entry has
`isStrengthening` set. -/
def strengtheningItems : List ItemType :=
  availableItems.filter (fun t => (ITEM_INFO_MAP t).isStrengthening)

/-- `this.weakeningItems`: the items whose `ITEM_INFO_MAP` entry has
`isStrengthening` cleared. -/
def weakeningItems : List ItemType :=
  availableItems.filter (fun t => ¬ (ITEM_INFO_MAP t).isStrengthening)

/-- `ItemSystem.generateRandomItemType`.  `roll` is the `Math.random()` draw
(a value of `[0,1)`, embedded as a rational) and `pick` the second draw already
scaled: `Math.floor(Math.random() * pool.length)` is uniform on
`[0, pool.length)`, embedded as `pick % pool.length`. -/
def generateRandomItemType (strengtheningBias : ℚ) (roll : ℚ) (pick : Nat) : ItemType :=
  let itemsPool := if roll < strengtheningBias then strengtheningItems else weakeningItems
  itemsPool.getD (pick % itemsPool.length) .chaosStrike

/-- `BlindBox` interface from `types.ts`. -/
structure BlindBox where
  position : Position
  itemType : ItemType
  isOpened : Bool
  timestamp : Nat
deriving DecidableEq, Repr

/-- `ItemSystem.generateBlindBox` with the random draws threaded. -/
def generateBlindBox (availablePositions : List Position) (strengtheningBias : ℚ)
    (posPick : Nat) (roll : ℚ) (itemPick : Nat) (now : Nat) : Option BlindBox :=
  if availablePositions.length = 0 then
    none
  else
    some { position := availablePositions.getD (posPick % availablePositions.length) ⟨0, 0⟩,
           itemType := generateRandomItemType strengtheningBias roll itemPick,
           isOpened := false,
           timestamp := now }

/-! ## Win detection (`GomokuGame.checkWin` / `checkDirection`) -/

/-- The four axis directions checked by `checkWin`, `evaluatePosition` and
`checkDirection`, in source order: horizontal, vertical, both diagonals. -/
def directions : List (Int × Int) :=
  [(1, 0), (0, 1), (1, 1), (1, -1)]

/-- One arm of the `while (isValidPosition && getStone === player)` walk used
by `checkDirection` (and, for run lengths, by `evaluateDirection`): collect the
contiguous same-player cells starting at `(x, y)` stepping by `(dx, dy)`.
The walk is fuelled with `b.size`, which is never exhausted for the direction
vectors in use (one coordinate moves monotonically through `[0, size)`). -/
def walkDir (b : Board) (player : Player) (dx dy : Int) :
    Nat → Int → Int → List Position
  | 0, _, _ => []
  | fuel + 1, x, y =>
    if b.isValidPosition ⟨x, y⟩ && (b.getStone ⟨x, y⟩ == some player) then
      Position.mk x y :: walkDir b player dx dy fuel (x + dx) (y + dy)
    else []

/-- `GomokuGame.checkDirection`: the contiguous same-player run through `pos`
along `(dx, dy)` — backward cells are `unshift`ed (so they appear farthest
first), then `pos`, then the forward cells. -/
def checkDirection (b : Board) (pos : Position) (player : Player) (dx dy : Int) :
    List Position :=
  (walkDir b player (-dx) (-dy) b.size (pos.x - dx) (pos.y - dy)).reverse ++
    pos :: walkDir b player dx dy b.size (pos.x + dx) (pos.y + dy)

/-- The direction loop inside `GomokuGame.checkWin`: return on the first
direction whose run has length ≥ 5. -/
def checkWinAux (b : Board) (pos : Position) (player : Player) :
    List (Int × Int) → GameResult
  | [] => { winner := none, winningLine := [] }
  | d :: rest =>
    let winningLine := checkDirection b pos player d.1 d.2
    if 5 ≤ winningLine.length then
      { winner := some player, winningLine := winningLine }
    else
      checkWinAux b pos player rest

/-- `GomokuGame.checkWin`. -/
def checkWin (b : Board) (pos : Position) (player : Player) : GameResult :=
  checkWinAux b pos player directions

/-! ## Position evaluation (`GomokuGame.evaluatePosition` and helpers) -/

/-- `GomokuGame.calculateScore`: map (run length, open ends) to a score. -/
def calculateScore (count : Nat) (openEnds : Nat) : Int :=
  match count with
  | 5 => 1000000
  | 4 => if openEnds = 2 then 100000 else if openEnds = 1 then 10000 else 0
  | 3 => if openEnds = 2 then 1000 else if openEnds = 1 then 100 else 0
  | 2 => if openEnds = 2 then 10 else if openEnds = 1 then 5 else 0
  | 1 => 1
  | _ => 0

/-- `GomokuGame.evaluateDirection`: run length through `pos` for `player`
along `(dx, dy)` plus the open-end count, mapped through `calculateScore`.
The two `while` loops are the same walks as `checkDirection`; the loop
variables end on the first failing cell, which is then tested for being an
in-bounds empty (open) end. -/
def evaluateDirection (b : Board) (pos : Position) (player : Player) (dx dy : Int) : Int :=
  let fwd := walkDir b player dx dy b.size (pos.x + dx) (pos.y + dy)
  let bwd := walkDir b player (-dx) (-dy) b.size (pos.x - dx) (pos.y - dy)
  let count := 1 + fwd.length + bwd.length
  let endF : Position := ⟨pos.x + (fwd.length + 1) * dx, pos.y + (fwd.length + 1) * dy⟩
  let endB : Position := ⟨pos.x - (bwd.length + 1) * dx, pos.y - (bwd.length + 1) * dy⟩
  let openF : Nat := if b.isValidPosition endF && b.isEmpty endF then 1 else 0
  let openB : Nat := if b.isValidPosition endB && b.isEmpty endB then 1 else 0
  calculateScore count (openF + openB)

/-- `GomokuGame.evaluatePosition`: sum, over the four directions, the scores
for the evaluating side (`current`) and for its opponent, plus the
center-proximity bonus `(10 - manhattanDistance) * 2`. -/
def evaluatePosition (b : Board) (current : Player) (pos : Position) : Int :=
  let aiColor := current
  let playerColor := current.opponent
  let dirScore := directions.foldl
    (fun acc d =>
      acc + evaluateDirection b pos aiColor d.1 d.2 +
        evaluateDirection b pos playerColor d.1 d.2) 0
  let center : Int := (b.size : Int) / 2
  let distanceFromCenter := (pos.x - center).natAbs + (pos.y - center).natAbs
  dirScore + (10 - (distanceFromCenter : Int)) * 2

/-! ## GameEngine state (`src/game/GomokuGame.ts`) -/

/-- `PlayerItem` interface from `types.ts`. -/
structure PlayerItem where
  itemType : ItemType
  acquiredAt : Nat
  activatedAt : Option Nat
  expiresAt : Option Nat
  isActive : Bool
deriving DecidableEq, Repr

/-- `MoveEvent` interface from `types.ts`. -/
structure MoveEvent where
  moveId : String
  timestamp : Nat
  player : Player
  type : MoveEventType
  itemType : Option ItemType
  extraMovesAdded : Option Int
  description : String
deriving DecidableEq, Repr

/-- `PlayerMoveCount` interface from `types.ts` (JS numbers as `Int`). -/
structure PlayerMoveCount where
  player : Player
  originalMoveCount : Int
  extraMovesEarned : Int
  extraMovesUsed : Int
  currentExtraMoves : Int
  moveEvents : List MoveEvent
deriving DecidableEq, Repr

/-- `GameMoveCountState` interface from `types.ts`. -/
structure GameMoveCountState where
  players : PlayerMap PlayerMoveCount
  currentPlayer : Player
  currentMoveEventId : String
deriving DecidableEq, Repr

/-- `GameConfig` interface from `types.ts` (`difficulty` is an unused string
stub). -/
structure GameConfig where
  mode : GameMode
  playerColor : Player
  difficulty : String
  enableItems : Bool
deriving DecidableEq, Repr

/-- The `GomokuGame` class state.  Timer handles, the `isAiCalculating` flag
and the change-notification callback list are real-time plumbing and are not
modelled (see the header comment). -/
structure GomokuGame where
  board : Board
  currentPlayer : Player
  gameState : GameState
  gameSubState : GameSubState
  gameResult : Option GameResult
  moveHistory : List Move
  config : GameConfig
  blindBoxes : List BlindBox
  playerItems : PlayerMap (List PlayerItem)
  activeEffects : PlayerMap (List PlayerItem)
  lastItemUsed : Option ItemType
  strategyGuidePositions : List Position
  hasExtraMove : Bool
  nextPlayerHasExtraMove : Bool
  nextPlayerHasSlipPenalty : Bool
  allowedPositions : List Position
  notification : Option String
  preciseStrikePlayer : Option Player
  preciseStrikeHasExtraMove : Bool
  gameMoveCountState : GameMoveCountState
deriving DecidableEq, Repr

/-- One bundle of the random draws / clock reads an engine step may consume,
threaded explicitly (see the header comment).  Index draws are reduced modulo
the sampled pool's length at the use site, matching
`Math.floor(Math.random() * pool.length)`. -/
structure Rand where
  now : Nat
  idSuffix : String
  pick : Nat
  slip1 : Nat
  slip2 : Nat
  slip3 : Nat
  boxPosPick : Nat
  boxRoll : ℚ
  boxItemPick : Nat
deriving Repr

/-- `createPlayerMoveCount`. -/
def createPlayerMoveCount (player : Player) : PlayerMoveCount :=
  { player := player, originalMoveCount := 0, extraMovesEarned := 0,
    extraMovesUsed := 0, currentExtraMoves := 0, moveEvents := [] }

/-- `createGameMoveCountState` (reads `this.currentPlayer` at call time). -/
def createGameMoveCountState (current : Player) : GameMoveCountState :=
  { players := { black := createPlayerMoveCount .black,
                 white := createPlayerMoveCount .white },
    currentPlayer := current,
    currentMoveEventId := "" }

/-- The `GomokuGame` constructor: READY state, defaults, empty item maps. -/
def GomokuGame.init (size : Nat) : GomokuGame :=
  { board := Board.mkBoard size
    currentPlayer := .black
    gameState := .ready
    gameSubState := .normal
    gameResult := none
    moveHistory := []
    config := { mode := .pvp, playerColor := .black,
                difficulty := "medium", enableItems := true }
    blindBoxes := []
    playerItems := { black := [], white := [] }
    activeEffects := { black := [], white := [] }
    lastItemUsed := none
    strategyGuidePositions := []
    hasExtraMove := false
    nextPlayerHasExtraMove := false
    nextPlayerHasSlipPenalty := false
    allowedPositions := []
    notification := none
    preciseStrikePlayer := none
    preciseStrikeHasExtraMove := false
    gameMoveCountState := createGameMoveCountState .black }

/-- `generateMoveEventId` with the clock and random suffix threaded. -/
def generateMoveEventId (r : Rand) : String :=
  "move_" ++ toString r.now ++ "_" ++ r.idSuffix

/-- Replace one player's `PlayerMoveCount` inside the engine state (the
effect of mutating the object obtained from `players.get(...)`). -/
def GomokuGame.setMoveCount (g : GomokuGame) (p : Player) (mc : PlayerMoveCount) :
    GomokuGame :=
  { g with gameMoveCountState :=
      { g.gameMoveCountState with players := g.gameMoveCountState.players.set p mc } }

/-- `recordMoveEvent`: append an event to the current player's log and update
`currentMoveEventId`. -/
def recordMoveEvent (g : GomokuGame) (r : Rand) (type : MoveEventType)
    (description : String) (itemType : Option ItemType)
    (extraMovesAdded : Option Int) : GomokuGame :=
  let event : MoveEvent :=
    { moveId := generateMoveEventId r, timestamp := r.now,
      player := g.currentPlayer, type := type, itemType := itemType,
      extraMovesAdded := extraMovesAdded, description := description }
  let mc := g.gameMoveCountState.players.get g.currentPlayer
  let g1 := g.setMoveCount g.currentPlayer { mc with moveEvents := mc.moveEvents ++ [event] }
  { g1 with gameMoveCountState :=
      { g1.gameMoveCountState with currentMoveEventId := event.moveId } }

/-- `addExtraMove`: bump `extraMovesEarned` and `currentExtraMoves` for
`player` and record an `ITEM_TRIGGER` event. -/
def addExtraMove (g : GomokuGame) (r : Rand) (player : Player) (source : String)
    (itemType : Option ItemType) : GomokuGame :=
  let mc := g.gameMoveCountState.players.get player
  let g1 := g.setMoveCount player
    { mc with extraMovesEarned := mc.extraMovesEarned + 1,
              currentExtraMoves := mc.currentExtraMoves + 1 }
  recordMoveEvent g1 r .itemTrigger (source ++ "增加1次额外落子机会") itemType (some 1)

/-- The per-player body of `validateMoveCountConsistency`: recompute
`extraMovesEarned - extraMovesUsed` and overwrite `currentExtraMoves` on
drift. -/
def fixMoveCount (mc : PlayerMoveCount) : Bool × PlayerMoveCount :=
  let calculatedExtraMoves := mc.extraMovesEarned - mc.extraMovesUsed
  if calculatedExtraMoves ≠ mc.currentExtraMoves then
    (false, { mc with currentExtraMoves := calculatedExtraMoves })
  else
    (true, mc)

/-- `validateMoveCountConsistency`: self-heal both players' counters, never
signalling anything beyond the returned `Bool`. -/
def validateMoveCountConsistency (g : GomokuGame) : Bool × GomokuGame :=
  let rb := fixMoveCount (g.gameMoveCountState.players.get .black)
  let rw := fixMoveCount (g.gameMoveCountState.players.get .white)
  (rb.1 && rw.1,
    (g.setMoveCount .black rb.2).setMoveCount .white rw.2)

/-- `showNotification` (display timer omitted; only the text is state). -/
def showNotification (g : GomokuGame) (message : String) : GomokuGame :=
  { g with notification := some message }

/-- `clearNotification`. -/
def clearNotification (g : GomokuGame) : GomokuGame :=
  { g with notification := none }

/-- `removeEffect`: filter every item of the given type out of both the
player's item list and their active-effect list. -/
def removeEffect (g : GomokuGame) (player : Player) (itemType : ItemType) :
    GomokuGame :=
  let updatedPlayerItems := (g.playerItems.get player).filter
    (fun item => item.itemType ≠ itemType)
  let updatedActiveEffects := (g.activeEffects.get player).filter
    (fun effect => effect.itemType ≠ itemType)
  { g with playerItems := g.playerItems.set player updatedPlayerItems,
           activeEffects := g.activeEffects.set player updatedActiveEffects }

/-- `addContinuousEffect`: push a fresh active item onto both lists. -/
def addContinuousEffect (g : GomokuGame) (r : Rand) (player : Player)
    (itemType : ItemType) (duration : Nat) : GomokuGame :=
  let newItem : PlayerItem :=
    { itemType := itemType, acquiredAt := r.now, activatedAt := some r.now,
      expiresAt := some (r.now + duration * 1000 * 60), isActive := true }
  { g with playerItems := g.playerItems.set player (g.playerItems.get player ++ [newItem]),
           activeEffects := g.activeEffects.set player (g.activeEffects.get player ++ [newItem]) }

/-- Row-major scan of the board coordinates (`y` outer loop, `x` inner loop),
the iteration order used by every position-collecting loop in the source. -/
def rowMajor (size : Nat) : List Position :=
  ((List.range size).map (fun y => (List.range size).map (fun x => Position.mk x y))).flatten

/-- The empty-cell collection loop (`if (this.board.isEmpty(pos)) push`). -/
def emptyPositions (b : Board) : List Position :=
  (rowMajor b.size).filter (fun pos => b.isEmpty pos)

/-- The stone collection loop (`if (this.board.getStone(pos) === player) push`). -/
def stonesOf (b : Board) (player : Player) : List Position :=
  (rowMajor b.size).filter (fun pos => b.getStone pos == some player)

/-- Whether `player` currently has an active TOUGHEN_HEART effect
(`activeEffects.some(effect => effect.itemType === TOUGHEN_HEART)`). -/
def hasToughenHeart (g : GomokuGame) (player : Player) : Bool :=
  (g.activeEffects.get player).any (fun effect => effect.itemType == .toughenHeart)

/-- `performChaosStrike`: immune opponents consume TOUGHEN_HEART (all entries
of that type are filtered out by `removeEffect`) and get a notification;
otherwise one random opponent stone is removed. -/
def chaosTarget (g : GomokuGame) (r : Rand) (player : Player) : Position :=
  let opponentStones := stonesOf g.board player.opponent
  opponentStones.getD (r.pick % opponentStones.length) ⟨0, 0⟩

def performChaosStrike (g : GomokuGame) (r : Rand) (player : Player) : GomokuGame :=
  let opponent := player.opponent
  if hasToughenHeart g opponent then
    let g1 := removeEffect g opponent .toughenHeart
    showNotification g1
      ((if opponent = .black then "黑方" else "白方") ++ " 使用「钢化我心」免疫了攻击！")
  else
    let opponentStones := stonesOf g.board opponent
    if opponentStones.length > 0 then
      { g with board := (g.board.removeStone (chaosTarget g r player)).2 }
    else
      g

/-- `performSelfMistake`: like chaos strike but against the trigger's own
stones (and own TOUGHEN_HEART). -/
def performSelfMistake (g : GomokuGame) (r : Rand) (player : Player) : GomokuGame :=
  if hasToughenHeart g player then
    let g1 := removeEffect g player .toughenHeart
    showNotification g1
      ((if player = .black then "黑方" else "白方") ++ " 使用「钢化我心」免疫了自己的失误！")
  else
    let playerStones := stonesOf g.board player
    if playerStones.length > 0 then
      let targetPosition := playerStones.getD (r.pick % playerStones.length) ⟨0, 0⟩
      { g with board := (g.board.removeStone targetPosition).2 }
    else
      g

/-- `performPreciseStrikeForAI`: no targets is a no-op; otherwise the same
TOUGHEN_HEART check, else a random opponent stone is removed. -/
def performPreciseStrikeForAI (g : GomokuGame) (r : Rand) (player : Player) :
    GomokuGame :=
  let opponent := player.opponent
  let opponentStones := stonesOf g.board opponent
  if opponentStones.length = 0 then
    g
  else if hasToughenHeart g opponent then
    let g1 := removeEffect g opponent .toughenHeart
    showNotification g1
      ((if opponent = .black then "黑方" else "白方") ++ " 使用「钢化我心」免疫了精准打击！")
  else
    let targetPosition := opponentStones.getD (r.pick % opponentStones.length) ⟨0, 0⟩
    { g with board := (g.board.removeStone targetPosition).2 }

/-- Stable insertion of a scored position into a descending-by-score list,
embedding `Array.prototype.sort((a, b) => b.score - a.score)` (stable in
modern engines). -/
def insertScoredDesc (a : Position × Int) : List (Position × Int) → List (Position × Int)
  | [] => [a]
  | b :: rest => if b.2 < a.2 then a :: b :: rest else b :: insertScoredDesc a rest

/-- Stable sort by score, descending. -/
def sortScoredDesc : List (Position × Int) → List (Position × Int)
  | [] => []
  | a :: rest => insertScoredDesc a (sortScoredDesc rest)

/-- `showStrategyGuide`: score every empty cell as if `player` were current
(the source saves/restores `currentPlayer` around the evaluation; net effect:
evaluate for `player`), sort descending, keep the top 3. -/
def showStrategyGuide (g : GomokuGame) (player : Player) : GomokuGame :=
  let g0 := { g with strategyGuidePositions := [],
                     gameSubState := .showingStrategyGuide }
  let availablePositions := emptyPositions g.board
  if availablePositions.length = 0 then
    g0
  else
    let scoredPositions := availablePositions.map
      (fun pos => (pos, evaluatePosition g.board player pos))
    let topPositions := (sortScoredDesc scoredPositions).take 3
    { g0 with strategyGuidePositions := topPositions.map (fun item => item.1) }

/-- The `applySlipPenalty` selection loop: up to three draws without
replacement from the remaining available positions (`splice` removes the
picked entry). -/
def pickRandomPositions : List Position → List Nat → List Position
  | _, [] => []
  | [], _ :: _ => []
  | avail@(_ :: _), rIdx :: rs =>
    let i := rIdx % avail.length
    avail.getD i ⟨0, 0⟩ :: pickRandomPositions (avail.eraseIdx i) rs

/-- `applySlipPenalty`: replace `allowedPositions` by up to 3 random empty
cells. -/
def applySlipPenalty (g : GomokuGame) (r : Rand) : GomokuGame :=
  { g with allowedPositions :=
      pickRandomPositions (emptyPositions g.board) [r.slip1, r.slip2, r.slip3] }

/-- `generateNewBlindBox`: collect empty cells without an unopened box, then
`generateBlindBox` with the default 0.5 bias, appending the result (if any). -/
def generateNewBlindBox (g : GomokuGame) (r : Rand) : GomokuGame :=
  let availablePositions := (rowMajor g.board.size).filter
    (fun pos =>
      let hasBlindBox := g.blindBoxes.any
        (fun box => !box.isOpened && box.position.x == pos.x && box.position.y == pos.y)
      g.board.isEmpty pos && !hasBlindBox)
  match generateBlindBox availablePositions (1 / 2) r.boxPosPick r.boxRoll r.boxItemPick r.now with
  | none => g
  | some newBlindBox => { g with blindBoxes := g.blindBoxes ++ [newBlindBox] }

/-- `this.hasExtraMove = currentExtraMoves > 0` refresh for the current
player (used by ACCELERATED_MOVE). -/
def setHasExtraFlag (g1 : GomokuGame) : GomokuGame :=
  { g1 with hasExtraMove :=
      decide (0 < (g1.gameMoveCountState.players.get g1.currentPlayer).currentExtraMoves) }

/-- The `finally` block of the STRATEGY_GUIDE case: refresh `hasExtraMove`
from the saved original player's counter and restore `currentPlayer`. -/
def restoreCurrentAndFlag (g1 : GomokuGame) (orig : Player) : GomokuGame :=
  { g1 with
    hasExtraMove :=
      decide (0 < (g1.gameMoveCountState.players.get orig).currentExtraMoves)
    currentPlayer := orig }

/-- Enter SHOWING_ITEM_NAME when the item effect left the sub-state NORMAL
(the timed revert is a display timer, not modelled). -/
def showItemNameIfNormal (g2 : GomokuGame) : GomokuGame :=
  if g2.gameSubState = .normal then
    { g2 with gameSubState := .showingItemName }
  else
    g2

/-- End the game with a result (win or draw). -/
def finishWithResult (g2 : GomokuGame) (result : GameResult) : GomokuGame :=
  { g2 with gameState := .over, gameResult := some result }

/-- The bookkeeping right after an opponent-acceleration grant: clear the
pending flag and refresh `hasExtraMove` from the incoming player's counter. -/
def afterAccelGrant (ga : GomokuGame) : GomokuGame :=
  { ga with
    nextPlayerHasExtraMove := false
    hasExtraMove :=
      decide (0 < (ga.gameMoveCountState.players.get ga.currentPlayer).currentExtraMoves) }

/-- `triggerItemEffect`: the item-effect switch. -/
def triggerItemEffect (g : GomokuGame) (r : Rand) (itemType : ItemType)
    (player : Player) : GomokuGame :=
  match itemType with
  | .chaosStrike => performChaosStrike g r player
  | .preciseStrike =>
    if g.config.mode = .pve ∧ g.currentPlayer ≠ g.config.playerColor then
      performPreciseStrikeForAI g r player
    else
      { g with gameSubState := .selectingStrikeTarget,
               preciseStrikePlayer := some player,
               preciseStrikeHasExtraMove := g.hasExtraMove,
               hasExtraMove := false }
  | .acceleratedMove =>
    setHasExtraFlag (addExtraMove g r player "加速落子" (some .acceleratedMove))
  | .strategyGuide =>
    let originalCurrentPlayer := g.currentPlayer
    let g1 :=
      if g.config.mode = .pve ∧ g.currentPlayer ≠ g.config.playerColor then
        addExtraMove g r player "策略指引" (some .strategyGuide)
      else
        addExtraMove (showStrategyGuide g player) r player "策略指引" (some .strategyGuide)
    restoreCurrentAndFlag g1 originalCurrentPlayer
  | .toughenHeart => addContinuousEffect g r player .toughenHeart 1
  | .selfMistake => performSelfMistake g r player
  | .opponentAcceleration => { g with nextPlayerHasExtraMove := true }
  | .slipPenalty => { g with nextPlayerHasSlipPenalty := true }

/-- `openBlindBoxAtPosition`: open the unopened box at the landed cell (if
any), record `lastItemUsed`, fire the item effect, then enter
SHOWING_ITEM_NAME when no special sub-state was forced (the timed revert to
NORMAL is a display timer, not modelled). -/
def openBlindBoxAtPosition (g : GomokuGame) (r : Rand) (position : Position) :
    GomokuGame :=
  match g.blindBoxes.findIdx?
      (fun box => !box.isOpened && box.position.x == position.x
        && box.position.y == position.y) with
  | none => g
  | some blindBoxIndex =>
    let blindBox := g.blindBoxes.getD blindBoxIndex ⟨⟨0, 0⟩, .chaosStrike, false, 0⟩
    let g1 := { g with
      blindBoxes := g.blindBoxes.set blindBoxIndex { blindBox with isOpened := true },
      lastItemUsed := some blindBox.itemType }
    showItemNameIfNormal (triggerItemEffect g1 r blindBox.itemType g1.currentPlayer)

/-- Whether `position` matches an entry of `allowedPositions`
(`some(pos => pos.x === position.x && pos.y === position.y)`). -/
def isAllowedPosition (allowed : List Position) (position : Position) : Bool :=
  allowed.any (fun pos => pos.x == position.x && pos.y == position.y)

/-- The turn-end tail of `makeMove` (from the `if (this.hasExtraMove)` at the
extra-move consumption onwards): consume one banked extra move keeping the
same player, or advance the original-move counter, switch player and apply
the deferred opponent-acceleration / slip-penalty effects; in both branches
finish with the consistency check.  (The AI reply is scheduled on a timer in
the source, i.e. it is not part of this synchronous step.) -/
def makeMoveTurnEnd (g6 : GomokuGame) (r : Rand) : Bool × GomokuGame :=
  if g6.hasExtraMove then
    let mc := g6.gameMoveCountState.players.get g6.currentPlayer
    let mc1 := { mc with
                 extraMovesUsed := mc.extraMovesUsed + 1
                 currentExtraMoves := mc.currentExtraMoves - 1 }
    let g7 := g6.setMoveCount g6.currentPlayer mc1
    let g8 := { g7 with hasExtraMove := decide (0 < mc1.currentExtraMoves) }
    (true, (validateMoveCountConsistency g8).2)
  else
    let mc := g6.gameMoveCountState.players.get g6.currentPlayer
    let g7 := g6.setMoveCount g6.currentPlayer
      { mc with originalMoveCount := mc.originalMoveCount + 1 }
    let g8 := { g7 with currentPlayer := g7.currentPlayer.opponent }
    let g9 := { g8 with gameMoveCountState :=
      { g8.gameMoveCountState with currentPlayer := g8.currentPlayer } }
    let g10 :=
      if g9.nextPlayerHasExtraMove then
        afterAccelGrant (addExtraMove g9 r g9.currentPlayer "对手加速" (some .opponentAcceleration))
      else g9
    let g11 :=
      if g10.nextPlayerHasSlipPenalty then
        { applySlipPenalty g10 r with
          gameSubState := .handSlipPenalty
          nextPlayerHasSlipPenalty := false }
      else g10
    (true, (validateMoveCountConsistency g11).2)

/-- The history push and move-event recording of `makeMove` right after a
successful placement (tagged EXTRA_MOVE when a bonus move is being consumed,
else NORMAL_MOVE). -/
def recordPlacedMove (g : GomokuGame) (position : Position) (r : Rand)
    (b1 : Board) : GomokuGame :=
  let move : Move := { position := position, player := g.currentPlayer, timestamp := r.now }
  let g1 := { g with board := b1, moveHistory := g.moveHistory ++ [move] }
  if g1.hasExtraMove then
    recordMoveEvent g1 r .extraMove "使用额外落子机会" none none
  else
    recordMoveEvent g1 r .normalMove "正常落子" none none

/-- The hand-slip and strategy-guide cleanup of `makeMove` (runs after the
win/draw checks): clear the allowed-position restriction when the move used
it, and close an open strategy guide. -/
def clearSlipAndGuide (g2 : GomokuGame) (position : Position) : GomokuGame :=
  let wasHandSlipPenaltyMove := isAllowedPosition g2.allowedPositions position
  let g3 :=
    if wasHandSlipPenaltyMove ∧ g2.allowedPositions ≠ [] then
      { g2 with
        allowedPositions := []
        gameSubState :=
          if g2.gameSubState = .handSlipPenalty then .normal else g2.gameSubState }
    else g2
  if g3.gameSubState = .showingStrategyGuide then
    { g3 with gameSubState := .normal, strategyGuidePositions := [] }
  else g3

/-- The post-check cleanup of `makeMove`: hand-slip / strategy-guide cleanup
followed by opening any blind box at the landed cell. -/
def afterMoveCleanup (g2 : GomokuGame) (position : Position) (r : Rand) : GomokuGame :=
  openBlindBoxAtPosition (clearSlipAndGuide g2 position) r position

/-- The tail of `makeMove` after a successful placement: history/event
recording, win and draw evaluation, hand-slip and strategy-guide cleanup,
blind-box opening, then `makeMoveTurnEnd` unless a sub-state needing player
interaction was entered (in which case a new blind box is still generated
and the call returns without advancing the turn). -/
def makeMovePlaced (g : GomokuGame) (position : Position) (r : Rand)
    (b1 : Board) : Bool × GomokuGame :=
  let g2 := recordPlacedMove g position r b1
  let result := checkWin g2.board position g2.currentPlayer
  if result.winner.isSome then
    (true, finishWithResult g2 result)
  else if g2.moveHistory.length = g2.board.size * g2.board.size then
    (true, finishWithResult g2 { winner := none, winningLine := [] })
  else
    let g5 := afterMoveCleanup g2 position r
    if g5.gameSubState ≠ .normal ∧ g5.gameSubState ≠ .showingItemName ∧
        g5.gameSubState ≠ .showingStrategyGuide then
      (true, if g5.config.enableItems then generateNewBlindBox g5 r else g5)
    else
      makeMoveTurnEnd (if g5.config.enableItems then generateNewBlindBox g5 r else g5) r

/-- The SELECTING_STRIKE_TARGET branch of `makeMove`, given the saved
triggering player: a click on an opponent stone resolves the strike (TOUGHEN
HEART immunity consumed, else stone removed), restores the saved extra-move
flag and hands the turn to the trigger's opponent when no extra move remains;
any other click changes nothing.  Always reports `false`. -/
def handleStrikeSelection (g : GomokuGame) (position : Position)
    (triggerPlayer : Player) : Bool × GomokuGame :=
  let opponent := triggerPlayer.opponent
  if g.board.getStone position = some opponent then
    let g1 :=
      if hasToughenHeart g opponent then
        showNotification (removeEffect g opponent .toughenHeart)
          ((if opponent = .black then "黑方" else "白方") ++ " 使用「钢化我心」免疫了精准打击！")
      else
        { g with board := (g.board.removeStone position).2 }
    let g2 := { g1 with
                gameSubState := .normal
                hasExtraMove := g.preciseStrikeHasExtraMove
                preciseStrikePlayer := none
                preciseStrikeHasExtraMove := false }
    let g3 :=
      if ¬ g2.hasExtraMove then
        { g2 with currentPlayer := triggerPlayer.opponent }
      else g2
    (false, g3)
  else
    (false, g)

/-- `GomokuGame.makeMove`: the full move-submission contract, returning the
`boolean` result together with the post-call state. -/
def makeMove (g : GomokuGame) (position : Position) (r : Rand) :
    Bool × GomokuGame :=
  if g.gameState ≠ .playing then
    (false, g)
  else if g.config.mode = .pve ∧ g.currentPlayer ≠ g.config.playerColor then
    (false, g)
  else if g.gameSubState = .selectingStrikeTarget then
    match g.preciseStrikePlayer with
    | none => (false, { g with gameSubState := .normal })
    | some triggerPlayer => handleStrikeSelection g position triggerPlayer
  else if g.allowedPositions ≠ [] ∧ ¬ isAllowedPosition g.allowedPositions position then
    (false, g)
  else
    match g.board.placeStone position g.currentPlayer r.now with
    | (false, _) => (false, g)
    | (true, b1) => makeMovePlaced g position r b1

/-- The best-position fold of `makeAIMove`: `bestScore` starts at
`-Infinity` (embedded as `none`, below every finite score) and
`bestPosition` at `availablePositions[0]`; a candidate replaces the best only
on a strictly greater score, so ties keep the first maximum in scan order. -/
def selectStep (b : Board) (current : Player) (best : Position × Option Int)
    (pos : Position) : Position × Option Int :=
  let score := evaluatePosition b current pos
  match best.2 with
  | none => (pos, some score)
  | some bestScore => if bestScore < score then (pos, some score) else best

def selectBestPosition (b : Board) (current : Player) (cands : List Position) :
    Position :=
  (cands.foldl (selectStep b current) (cands.headD ⟨0, 0⟩, (none : Option Int))).1

/-- The turn-end tail of `makeAIMove` (from its `if (this.hasExtraMove)`
onwards): consume one banked extra move (recording an AI extra-move event and
finishing with the consistency check; the follow-up AI call is scheduled on a
timer in the source and is not part of this synchronous step), or switch to
the other player. -/
def makeAIMoveFinish (g5 : GomokuGame) (r : Rand) : GomokuGame :=
  if g5.hasExtraMove then
    let g6 := recordMoveEvent g5 r .extraMove "AI使用额外落子机会" none none
    let mc := g6.gameMoveCountState.players.get g6.currentPlayer
    let mc1 := { mc with
                 extraMovesUsed := mc.extraMovesUsed + 1
                 currentExtraMoves := mc.currentExtraMoves - 1 }
    let g7 := g6.setMoveCount g6.currentPlayer mc1
    let g8 := { g7 with hasExtraMove := decide (0 < mc1.currentExtraMoves) }
    (validateMoveCountConsistency g8).2
  else
    { g5 with currentPlayer := g5.currentPlayer.opponent }

/-- The AI's candidate cells: the allowed positions under an active hand-slip
penalty, otherwise every empty cell in row-major scan order. -/
def aiCandidates (g0 : GomokuGame) : List Position :=
  if g0.gameSubState = .handSlipPenalty ∧ g0.allowedPositions ≠ [] then
    g0.allowedPositions
  else
    emptyPositions g0.board

/-- The placement-onwards tail of `makeAIMove`: place at the chosen cell
(ignoring the `placeStone` result, as the source does), push history, check
win and draw, clear the hand-slip state, open a blind box, generate a new
one, apply a pending opponent-acceleration grant, then `makeAIMoveFinish`. -/
def aiClearSlip (g1 : GomokuGame) : GomokuGame :=
  if g1.gameSubState = .handSlipPenalty then
    { g1 with gameSubState := .normal, allowedPositions := [] }
  else g1

def aiMaybeNewBox (g3 : GomokuGame) (r : Rand) : GomokuGame :=
  if g3.config.enableItems then generateNewBlindBox g3 r else g3

def aiMaybeAccel (g4 : GomokuGame) (r : Rand) : GomokuGame :=
  if g4.nextPlayerHasExtraMove then
    afterAccelGrant (addExtraMove g4 r g4.currentPlayer "对手加速" (some .opponentAcceleration))
  else g4

def aiAfterPlace (g1 : GomokuGame) (bestPosition : Position) (r : Rand) :
    GomokuGame :=
  makeAIMoveFinish
    (aiMaybeAccel
      (aiMaybeNewBox (openBlindBoxAtPosition (aiClearSlip g1) r bestPosition) r) r) r

def aiPlaceAndFinish (g0 : GomokuGame) (bestPosition : Position) (r : Rand) :
    GomokuGame :=
  let b1 := (g0.board.placeStone bestPosition g0.currentPlayer r.now).2
  let move : Move := { position := bestPosition, player := g0.currentPlayer,
                       timestamp := r.now }
  let g1 := { g0 with board := b1, moveHistory := g0.moveHistory ++ [move] }
  let result := checkWin g1.board bestPosition g1.currentPlayer
  if result.winner.isSome then
    finishWithResult g1 result
  else if g1.moveHistory.length = g1.board.size * g1.board.size then
    finishWithResult g1 { winner := none, winningLine := [] }
  else
    aiAfterPlace g1 bestPosition r

/-- `GomokuGame.makeAIMove` (one synchronous invocation; the follow-up call
scheduled on a timer when an extra move remains is not part of this step). -/
def maybeApplySlip (g : GomokuGame) (r : Rand) : GomokuGame :=
  if g.nextPlayerHasSlipPenalty then
    { applySlipPenalty g r with
      gameSubState := .handSlipPenalty
      nextPlayerHasSlipPenalty := false }
  else g

def makeAIMove (g : GomokuGame) (r : Rand) : GomokuGame :=
  if g.gameState ≠ .playing then
    g
  else
    let g0 := maybeApplySlip g r
    let availablePositions := aiCandidates g0
    if availablePositions.length = 0 then
      g0
    else
      aiPlaceAndFinish g0 (selectBestPosition g0.board g0.currentPlayer availablePositions) r

/-- `GomokuGame.pause`. -/
def pause (g : GomokuGame) : GomokuGame :=
  if g.gameState = .playing then { g with gameState := .paused } else g

/-- `GomokuGame.resume`. -/
def resume (g : GomokuGame) : GomokuGame :=
  if g.gameState = .paused then { g with gameState := .playing } else g

/-- `GomokuGame.undoMove` (engine-level undo; AI-timer cancellation is timer
plumbing and not modelled). -/
def gameUndoMove (g : GomokuGame) : Bool × GomokuGame :=
  if g.gameState = .ready ∨ g.moveHistory = [] then
    (false, g)
  else
    let g1 :=
      if g.config.mode = .pve then
        let lastMove := g.moveHistory.getLastD ⟨⟨0, 0⟩, .black, 0⟩
        let isComputerMove := lastMove.player ≠ g.config.playerColor
        if isComputerMove ∧ 2 ≤ g.moveHistory.length then
          { g with
            board := ((g.board.undoMove).2.undoMove).2
            moveHistory := g.moveHistory.dropLast.dropLast
            currentPlayer := g.config.playerColor }
        else
          { g with
            board := (g.board.undoMove).2
            moveHistory := g.moveHistory.dropLast
            currentPlayer := g.config.playerColor }
      else
        { g with
          board := (g.board.undoMove).2
          moveHistory := g.moveHistory.dropLast
          currentPlayer := g.currentPlayer.opponent }
    (true, { g1 with
             gameState := .playing
             gameResult := none
             gameSubState := .normal
             strategyGuidePositions := []
             allowedPositions := []
             preciseStrikePlayer := none
             preciseStrikeHasExtraMove := false })

/-- `GomokuGame.startNewGame` (timer cancellation and the PVE first-AI-move
scheduling are timer plumbing; the observable synchronous state reset is
modelled).  Note `createGameMoveCountState` runs before `currentPlayer` is
reset to BLACK, so it snapshots the pre-reset current player, exactly as in
the source. -/
def startNewGame (g : GomokuGame) : GomokuGame :=
  { g with
    blindBoxes := []
    playerItems := { black := [], white := [] }
    activeEffects := { black := [], white := [] }
    lastItemUsed := none
    strategyGuidePositions := []
    gameSubState := .normal
    hasExtraMove := false
    nextPlayerHasExtraMove := false
    nextPlayerHasSlipPenalty := false
    allowedPositions := []
    notification := none
    preciseStrikePlayer := none
    preciseStrikeHasExtraMove := false
    gameMoveCountState := createGameMoveCountState g.currentPlayer
    board := g.board.reset
    currentPlayer := .black
    gameState := .playing
    gameResult := none
    moveHistory := [] }

/-! ## Helper lemmas about lists and cells -/

/-- A concrete mid-strike state: a fresh 15x15 game put into play with an
armed precise strike awaiting target selection. -/
def strikeDemoGame : GomokuGame :=
  { GomokuGame.init 15 with
    gameState := GameState.playing
    gameSubState := GameSubState.selectingStrikeTarget
    preciseStrikePlayer := some Player.black }

/-- A fixed bundle of clock/random draws for concrete runs. -/
def demoRand : Rand :=
  { now := 1, idSuffix := "a", pick := 0, slip1 := 0, slip2 := 0, slip3 := 0,
    boxPosPick := 0, boxRoll := 0, boxItemPick := 0 }

/-- A nearly-full 5x5 board with exactly the three cells (0,0), (1,0), (2,0)
empty and no five-in-a-row through (0,0). -/
def slipDemoBoard : Board :=
  { size := 5
    grid := (List.range 5).map (fun y => (List.range 5).map (fun x =>
      if y = 0 ∧ x < 3 then none
      else if y % 4 < 2 then some Player.black else some Player.white))
    moves := [] }

/-- A running PvP game on `slipDemoBoard` whose next player owes a hand-slip
penalty (items disabled so no blind boxes interfere). -/
def slipDemoGame : GomokuGame :=
  { GomokuGame.init 5 with
    board := slipDemoBoard
    gameState := GameState.playing
    nextPlayerHasSlipPenalty := true
    config := { mode := GameMode.pvp, playerColor := Player.black,
                difficulty := "medium", enableItems := false } }

/-- `slipDemoGame` with the hand-slip restriction already active on two
allowed cells. -/
def slipActiveGame : GomokuGame :=
  { slipDemoGame with
    gameSubState := GameSubState.handSlipPenalty
    allowedPositions := [⟨1, 0⟩, ⟨2, 0⟩] }

/-- One active TOUGHEN_HEART effect entry. -/
def toughItem : PlayerItem :=
  { itemType := ItemType.toughenHeart, acquiredAt := 0, activatedAt := some 0,
    expiresAt := none, isActive := true }

/-- A fresh game in which WHITE holds two stacked TOUGHEN_HEART effects. -/
def chaosDemoGame : GomokuGame :=
  { GomokuGame.init 5 with
    activeEffects := { black := [], white := [toughItem, toughItem] } }

/-- A fresh 3x3 game in play (every cell empty, PvP defaults). -/
def aiDemoGame : GomokuGame :=
  { GomokuGame.init 3 with gameState := GameState.playing }

/-- The cell condition of the `checkDirection` walk: in bounds and holding
the player's stone. -/
def cellOk (b : Board) (player : Player) (q : Position) : Bool :=
  b.isValidPosition q && (b.getStone q == some player)

/-- A 5x5 board with BLACK stones on (0,1)..(0,4) and every other cell
empty: one stone short of a vertical five through (0,0). -/
def winDemoBoard : Board :=
  { size := 5
    grid := (List.range 5).map (fun y => (List.range 5).map (fun x =>
      if x = 0 ∧ 1 ≤ y then some Player.black else none))
    moves := [] }

/-- A running PvP game on `winDemoBoard` with BLACK to move. -/
def winDemoGame : GomokuGame :=
  { GomokuGame.init 5 with
    board := winDemoBoard
    gameState := GameState.playing
    config := { mode := GameMode.pvp, playerColor := Player.black,
                difficulty := "medium", enableItems := false } }

theorem list_set_of_getElem {α : Type} (l : List α) (i : Nat) (a : α)
    (h : l[i]? = some a) : l.set i a = l := by
  induction l generalizing i with
  | nil => simp at h
  | cons x xs ih =>
    cases i with
    | zero => simp_all
    | succ n => simp_all [List.set]

theorem Board.size_setCell (b : Board) (p : Position) (v : Option Player) :
    (b.setCell p v).size = b.size := rfl

theorem Board.moves_setCell (b : Board) (p : Position) (v : Option Player) :
    (b.setCell p v).moves = b.moves := rfl

theorem Board.isValidPosition_setCell (b : Board) (p q : Position) (v : Option Player) :
    (b.setCell p v).isValidPosition q = b.isValidPosition q := rfl

/-- On a well-formed board, a valid position indexes into the grid. -/
theorem Board.WF.indices {b : Board} (hwf : b.WF) {p : Position}
    (hv : b.isValidPosition p = true) :
    p.y.toNat < b.grid.length ∧ p.x.toNat < (b.grid.getD p.y.toNat []).length := by
  obtain ⟨hlen, hrow⟩ := hwf
  simp only [Board.isValidPosition, Bool.and_eq_true, decide_eq_true_eq] at hv
  obtain ⟨⟨⟨hx0, hxs⟩, hy0⟩, hys⟩ := hv
  have hy : p.y.toNat < b.size := by omega
  have hylt : p.y.toNat < b.grid.length := by omega
  refine ⟨hylt, ?_⟩
  have : b.grid.getD p.y.toNat [] = b.grid[p.y.toNat] := List.getD_eq_getElem b.grid [] hylt
  rw [this, hrow _ (b.grid.getElem_mem hylt)]
  omega

theorem Board.cellAt_setCell_self {b : Board} {p : Position} (v : Option Player)
    (hy : p.y.toNat < b.grid.length)
    (hx : p.x.toNat < (b.grid.getD p.y.toNat []).length) :
    (b.setCell p v).cellAt p = v := by
  simp only [Board.setCell, Board.cellAt, List.getD, List.get?_eq_getElem?]
  rw [List.getElem?_set_self hy]
  simp only [Option.getD_some]
  rw [List.getElem?_set_self (by simpa [List.getD, List.get?_eq_getElem?] using hx)]
  rfl

theorem Board.cellAt_setCell_ne (b : Board) (p q : Position) (v : Option Player)
    (h : q.x.toNat ≠ p.x.toNat ∨ q.y.toNat ≠ p.y.toNat) :
    (b.setCell p v).cellAt q = b.cellAt q := by
  simp only [Board.setCell, Board.cellAt, List.getD, List.get?_eq_getElem?]
  by_cases hy : q.y.toNat = p.y.toNat
  · have hx : q.x.toNat ≠ p.x.toNat := by tauto
    rw [hy]
    by_cases hlen : p.y.toNat < b.grid.length
    · rw [List.getElem?_set_self hlen]
      simp only [Option.getD_some]
      rw [List.getElem?_set_ne (fun hc => hx hc.symm)]
    · rw [List.set_eq_of_length_le (by omega)]
  · rw [List.getElem?_set_ne (fun hc => hy hc.symm)]

theorem Board.getStone_setCell_ne (b : Board) (p q : Position) (v : Option Player)
    (h : q.x.toNat ≠ p.x.toNat ∨ q.y.toNat ≠ p.y.toNat) :
    (b.setCell p v).getStone q = b.getStone q := by
  simp only [Board.getStone, Board.isValidPosition_setCell]
  rw [Board.cellAt_setCell_ne b p q v h]

/-! ## C8: `removeStone` behaviour -/

/-- C8.  `Board.removeStone(pos)` returns `false` and leaves the board
unchanged when `pos` is out of bounds or the cell is already empty; otherwise
it clears the cell (leaving all other cells untouched) and returns `true`;
and in every case the move stack is left completely unchanged. -/
theorem removeStone_spec (b : Board) (p : Position) (hwf : b.WF) :
    ((b.removeStone p).2).moves = b.moves ∧
    ((b.removeStone p).2).size = b.size ∧
    ((b.isValidPosition p = false ∨ b.getStone p = none) → b.removeStone p = (false, b)) ∧
    (b.isValidPosition p = true → b.getStone p ≠ none →
      (b.removeStone p).1 = true ∧
      (b.removeStone p).2.getStone p = none ∧
      ∀ q : Position, (q.x.toNat ≠ p.x.toNat ∨ q.y.toNat ≠ p.y.toNat) →
        (b.removeStone p).2.getStone q = b.getStone q) := by
  refine ⟨?_, ?_, ?_, ?_⟩
  · unfold Board.removeStone
    split
    · rfl
    · split
      · rfl
      · exact Board.moves_setCell b p none
  · unfold Board.removeStone
    split
    · rfl
    · split
      · rfl
      · exact Board.size_setCell b p none
  · intro h
    unfold Board.removeStone
    rcases h with h | h
    · simp [h]
    · by_cases hv : b.isValidPosition p = true
      · have hcell : b.cellAt p = none := by
          simpa [Board.getStone, hv] using h
        simp [hv, hcell]
      · simp [Bool.not_eq_true] at hv
        simp [hv]
  · intro hv hcell
    have hcell' : ¬ (b.cellAt p == none) = true := by
      simp only [beq_iff_eq]
      simpa [Board.getStone, hv] using hcell
    have hres : b.removeStone p = (true, b.setCell p none) := by
      unfold Board.removeStone
      simp [hv, hcell']
    obtain ⟨hy, hx⟩ := hwf.indices hv
    refine ⟨by rw [hres], ?_, ?_⟩
    · rw [hres]
      simp only [Board.getStone, Board.isValidPosition_setCell, hv, if_true]
      exact Board.cellAt_setCell_self none hy hx
    · intro q hq
      rw [hres]
      exact Board.getStone_setCell_ne b p q none hq

/-- Witness for C8 at a concrete input. -/
theorem removeStone_spec_witness :
    let b1 := ((Board.mkBoard 15).placeStone ⟨2, 3⟩ .black 7).2
    (b1.removeStone ⟨2, 3⟩).1 = true ∧
    (b1.removeStone ⟨2, 3⟩).2.getStone ⟨2, 3⟩ = none ∧
    ((b1.removeStone ⟨2, 3⟩).2).moves = b1.moves := by
  intro b1
  have h := removeStone_spec b1 ⟨2, 3⟩ (by decide)
  have h2 := h.2.2.2 (by decide) (by decide)
  exact ⟨h2.1, h2.2.1, h.1⟩

/-! ## C10: `pause` / `resume` -/

/-- C10.  `pause()` changes the state only when PLAYING (to PAUSED) and
`resume()` only when PAUSED (to PLAYING); in READY or OVER both are complete
no-ops, leaving the whole engine state unchanged; and even in the active case
only the `gameState` field changes. -/
theorem pause_resume_spec (g : GomokuGame) :
    (g.gameState = .playing → pause g = { g with gameState := .paused }) ∧
    (g.gameState ≠ .playing → pause g = g) ∧
    (g.gameState = .paused → resume g = { g with gameState := .playing }) ∧
    (g.gameState ≠ .paused → resume g = g) ∧
    ((g.gameState = .ready ∨ g.gameState = .over) → pause g = g ∧ resume g = g) := by
  unfold pause resume
  refine ⟨?_, ?_, ?_, ?_, ?_⟩
  · intro h; simp [h]
  · intro h; simp [h]
  · intro h; simp [h]
  · intro h; simp [h]
  · rintro (h | h) <;> simp [h]

/-! ## C7: `undoMove` inverts `placeStone` -/

theorem Board.ext3 (b1 b2 : Board) (h1 : b1.size = b2.size) (h2 : b1.grid = b2.grid)
    (h3 : b1.moves = b2.moves) : b1 = b2 := by
  cases b1; cases b2; simp_all

theorem Board.WF.setCell {b : Board} (hwf : b.WF) (p : Position) (v : Option Player) :
    (b.setCell p v).WF := by
  obtain ⟨hlen, hrow⟩ := hwf
  constructor
  · simpa [Board.setCell] using hlen
  · intro row hmem
    simp only [Board.setCell] at hmem
    by_cases hy : p.y.toNat < b.grid.length
    · rcases List.mem_or_eq_of_mem_set hmem with h | h
      · exact hrow row h
      · subst h
        rw [List.length_set]
        exact hrow _ (by rw [List.getD_eq_getElem b.grid [] hy]; exact b.grid.getElem_mem hy)
    · rw [List.set_eq_of_length_le (by omega)] at hmem
      exact hrow row hmem

theorem Board.WF.placeStone {b : Board} (hwf : b.WF) (p : Position) (pl : Player)
    (t : Nat) : ((b.placeStone p pl t).2).WF := by
  unfold Board.placeStone
  split
  · exact hwf
  · exact hwf.setCell p (some pl)

/-- A successful `placeStone` is inverted exactly by `undoMove`: the popped
move is the one just pushed and the whole board state (grid, stack, size)
returns to what it was. -/
theorem placeStone_undoMove (b : Board) (p : Position) (pl : Player) (t : Nat)
    (hwf : b.WF) (hs : (b.placeStone p pl t).1 = true) :
    ((b.placeStone p pl t).2).undoMove =
      (some { position := p, player := pl, timestamp := t }, b) := by
  have hemp : b.isEmpty p = true := by
    by_contra hc
    unfold Board.placeStone at hs
    simp [hc] at hs
  have hv : b.isValidPosition p = true := by
    simp only [Board.isEmpty, Bool.and_eq_true] at hemp
    exact hemp.1
  have hcell : b.cellAt p = none := by
    simp only [Board.isEmpty, Bool.and_eq_true, beq_iff_eq] at hemp
    exact hemp.2
  obtain ⟨hy, hx⟩ := hwf.indices hv
  have hx' : p.x.toNat < (b.grid[p.y.toNat]?.getD []).length := by
    simpa [List.getD, List.get?_eq_getElem?] using hx
  have hcell' : (b.grid[p.y.toNat]?.getD [])[p.x.toNat]? = some none := by
    rw [List.getElem?_eq_getElem hx']
    have hD : (b.grid[p.y.toNat]?.getD []).getD p.x.toNat none = b.cellAt p := by
      simp [Board.cellAt, List.getD, List.get?_eq_getElem?]
    rw [List.getD_eq_getElem _ _ hx'] at hD
    rw [hD, hcell]
  have hgridD : (b.grid[p.y.toNat]?.getD []).set p.x.toNat none =
      b.grid[p.y.toNat]?.getD [] :=
    list_set_of_getElem _ _ _ hcell'
  have hgrid : ((b.setCell p (some pl)).setCell p none).grid = b.grid := by
    simp only [Board.setCell, List.getD, List.get?_eq_getElem?]
    rw [List.getElem?_set_self hy]
    simp only [Option.getD_some]
    rw [List.set_set, List.set_set, hgridD]
    apply list_set_of_getElem
    rw [List.getElem?_eq_getElem hy]
    simp [List.getD, List.get?_eq_getElem?, List.getElem?_eq_getElem hy]
  have hres : b.placeStone p pl t =
      (true, { b.setCell p (some pl) with
        moves := b.moves ++ [{ position := p, player := pl, timestamp := t }] }) := by
    unfold Board.placeStone
    simp [hemp]
  rw [hres]
  unfold Board.undoMove
  simp only [List.getLast?_concat]
  refine congrArg _ ?_
  apply Board.ext3
  · rfl
  · exact hgrid
  · show (b.moves ++ [({ position := p, player := pl, timestamp := t } : Move)]).dropLast = b.moves
    exact List.dropLast_concat ..

/-- A sequence of placement requests, each required to succeed
(`none` when any placement fails). -/
def placeSeq : Board → List (Position × Player × Nat) → Option Board
  | b, [] => some b
  | b, (p, pl, t) :: rest =>
    if (b.placeStone p pl t).1 then placeSeq ((b.placeStone p pl t).2) rest else none

theorem placeSeq_WF : ∀ (reqs : List (Position × Player × Nat)) (b0 b : Board),
    b0.WF → placeSeq b0 reqs = some b → b.WF := by
  intro reqs
  induction reqs with
  | nil => intro b0 b hwf h; simp only [placeSeq, Option.some.injEq] at h; rwa [← h]
  | cons r rest ih =>
    intro b0 b hwf h
    obtain ⟨p, pl, t⟩ := r
    simp only [placeSeq] at h
    split at h
    · exact ih _ b (hwf.placeStone p pl t) h
    · exact absurd h (by simp)

theorem placeSeq_concat : ∀ (reqs : List (Position × Player × Nat))
    (b0 bN : Board) (q : Position × Player × Nat),
    placeSeq b0 (reqs ++ [q]) = some bN →
    ∃ bPrev, placeSeq b0 reqs = some bPrev ∧
      (bPrev.placeStone q.1 q.2.1 q.2.2).1 = true ∧
      (bPrev.placeStone q.1 q.2.1 q.2.2).2 = bN := by
  intro reqs
  induction reqs with
  | nil =>
    intro b0 bN q h
    obtain ⟨p, pl, t⟩ := q
    simp only [List.nil_append, placeSeq] at h
    split at h
    · simp only [placeSeq, Option.some.injEq] at h
      exact ⟨b0, rfl, by assumption, h⟩
    · exact absurd h (by simp)
  | cons r rest ih =>
    intro b0 bN q h
    obtain ⟨p, pl, t⟩ := r
    simp only [List.cons_append, placeSeq] at h
    split at h
    · obtain ⟨bPrev, h1, h2, h3⟩ := ih _ bN q h
      refine ⟨bPrev, ?_, h2, h3⟩
      simp only [placeSeq]
      split
      · exact h1
      · simp_all
    · exact absurd h (by simp)

/-- C7.  For any board reached by `N` successful `placeStone` calls (and no
intervening `removeStone`), `undoMove` pops and returns the `N`-th placed
move and restores grid and stack exactly to the state after `N-1` placements;
on an empty move stack it returns `null` and changes nothing. -/
theorem undoMove_spec :
    (∀ (b0 : Board) (reqs : List (Position × Player × Nat)) (q : Position)
       (qp : Player) (qt : Nat) (bN : Board), b0.WF →
       placeSeq b0 (reqs ++ [(q, qp, qt)]) = some bN →
       ∃ bPrev, placeSeq b0 reqs = some bPrev ∧
         bN.undoMove = (some { position := q, player := qp, timestamp := qt }, bPrev)) ∧
    (∀ b : Board, b.moves = [] → b.undoMove = (none, b)) := by
  constructor
  · intro b0 reqs q qp qt bN hwf h
    obtain ⟨bPrev, h1, h2, h3⟩ := placeSeq_concat reqs b0 bN (q, qp, qt) h
    refine ⟨bPrev, h1, ?_⟩
    rw [← h3]
    exact placeStone_undoMove bPrev q qp qt (placeSeq_WF reqs b0 bPrev hwf h1) h2
  · intro b h
    unfold Board.undoMove
    rw [h]
    rfl

/-- Witness for C7 at a concrete input. -/
theorem undoMove_spec_witness :
    (∃ bPrev, placeSeq (Board.mkBoard 15) [(⟨0, 0⟩, .black, 1)] = some bPrev ∧
      (((((Board.mkBoard 15).placeStone ⟨0, 0⟩ .black 1).2).placeStone ⟨1, 0⟩ .white 2).2).undoMove =
        (some { position := ⟨1, 0⟩, player := .white, timestamp := 2 }, bPrev)) ∧
    (Board.mkBoard 15).undoMove = (none, Board.mkBoard 15) :=
  ⟨undoMove_spec.1 (Board.mkBoard 15) [(⟨0, 0⟩, .black, 1)] ⟨1, 0⟩ .white 2 _
      (by decide) (by rfl),
   undoMove_spec.2 (Board.mkBoard 15) rfl⟩

/-! ## C3: the item pools and `SLIP_PENALTY` -/

/-- C3 (code bug exhibited).  The runtime pools are driven by the
`isStrengthening` flags of `ITEM_INFO_MAP`, and the `SLIP_PENALTY` entry has
the flag SET — despite sitting under the source's own `// 弱化类道具`
(weakening items) comment and the enum's `弱化类道具（3种）` listing.  Hence
the pools split 6/2 instead of the documented 5/3, `SLIP_PENALTY` lands in
the strengthening pool, can be drawn by the `rand < bias` (strengthening)
branch of `generateRandomItemType`, and can never be drawn by the weakening
branch — the exact opposite of the claimed partition. -/
theorem slipPenalty_pool_bug :
    (ITEM_INFO_MAP .slipPenalty).isStrengthening = true ∧
    ItemType.slipPenalty ∈ strengtheningItems ∧
    ItemType.slipPenalty ∉ weakeningItems ∧
    strengtheningItems.length = 6 ∧
    weakeningItems.length = 2 ∧
    (∀ (bias roll : ℚ) (pick : Nat), ¬ roll < bias →
      generateRandomItemType bias roll pick ≠ .slipPenalty) ∧
    ((1 : ℚ) / 4 < 1 / 2 ∧ generateRandomItemType (1 / 2) (1 / 4) 5 = .slipPenalty) := by
  refine ⟨rfl, by decide, by decide, rfl, rfl, ?_, by norm_num, ?_⟩
  · intro bias roll pick h
    unfold generateRandomItemType
    rw [if_neg h]
    have h2 : pick % weakeningItems.length = 0 ∨ pick % weakeningItems.length = 1 := by
      have : pick % weakeningItems.length < 2 := Nat.mod_lt _ (by decide)
      omega
    show weakeningItems.getD (pick % weakeningItems.length) ItemType.chaosStrike ≠
      ItemType.slipPenalty
    rcases h2 with h2 | h2 <;> rw [h2] <;> decide
  · have hroll : (1 : ℚ) / 4 < 1 / 2 := by norm_num
    unfold generateRandomItemType
    rw [if_pos hroll]
    rfl

/-- Witness for `slipPenalty_pool_bug`'s universally-quantified conjunct at a
concrete input: a weakening-branch draw (`roll ≥ bias`) never yields
`SLIP_PENALTY`. -/
theorem slipPenalty_pool_bug_witness :
    generateRandomItemType (1 / 2) 1 7 ≠ ItemType.slipPenalty :=
  slipPenalty_pool_bug.2.2.2.2.2.1 (1 / 2) 1 7 (by norm_num)

/-! ## C2: the extra-move bookkeeping invariant -/

/-- The claimed invariant, phrased on the per-player counter map: for every
player, `currentExtraMoves == extraMovesEarned - extraMovesUsed`. -/
def MCInv (players : PlayerMap PlayerMoveCount) : Prop :=
  ∀ p : Player, (players.get p).currentExtraMoves =
    (players.get p).extraMovesEarned - (players.get p).extraMovesUsed

/-- The claimed invariant on an engine state. -/
def ExtraInv (g : GomokuGame) : Prop :=
  MCInv g.gameMoveCountState.players

theorem extraInv_recordMoveEvent (g : GomokuGame) (r : Rand)
    (ty : MoveEventType) (d : String) (it : Option ItemType) (em : Option Int)
    (hi : ExtraInv g) : ExtraInv (recordMoveEvent g r ty d it em) := by
  intro p
  simp only [recordMoveEvent, GomokuGame.setMoveCount]
  by_cases hp : p = g.currentPlayer
  · subst hp
    rw [PlayerMap.get_set_same]
    exact hi g.currentPlayer
  · rw [PlayerMap.get_set_other _ _ _ _ (fun hc => hp hc.symm)]
    exact hi p

theorem extraInv_addExtraMove (g : GomokuGame) (r : Rand) (pl : Player)
    (s : String) (it : Option ItemType) (hi : ExtraInv g) :
    ExtraInv (addExtraMove g r pl s it) := by
  unfold addExtraMove
  refine extraInv_recordMoveEvent _ r _ _ _ _ ?_
  intro p
  simp only [GomokuGame.setMoveCount]
  by_cases hp : p = pl
  · subst hp
    rw [PlayerMap.get_set_same]
    have := hi p
    simp only []
    omega
  · rw [PlayerMap.get_set_other _ _ _ _ (fun hc => hp hc.symm)]
    exact hi p

theorem fixMoveCount_spec (mc : PlayerMoveCount) :
    (fixMoveCount mc).2.currentExtraMoves =
      (fixMoveCount mc).2.extraMovesEarned - (fixMoveCount mc).2.extraMovesUsed := by
  simp only [fixMoveCount]
  split
  · rfl
  · rename_i h
    push_neg at h
    simpa using h.symm

theorem fixMoveCount_fst_false (mc : PlayerMoveCount)
    (h : mc.currentExtraMoves ≠ mc.extraMovesEarned - mc.extraMovesUsed) :
    (fixMoveCount mc).1 = false := by
  unfold fixMoveCount
  rw [if_pos (by omega)]

/-- The consistency check always leaves both players satisfying the
invariant, whatever the input state. -/
theorem extraInv_validate (g : GomokuGame) :
    ExtraInv (validateMoveCountConsistency g).2 := by
  intro p
  cases p <;>
    simp only [validateMoveCountConsistency, GomokuGame.setMoveCount,
      PlayerMap.get, PlayerMap.set] <;>
    exact fixMoveCount_spec _

/-- If some player's counters have drifted, the check reports `false`. -/
theorem validate_reports_drift (g : GomokuGame) (h : ¬ ExtraInv g) :
    (validateMoveCountConsistency g).1 = false := by
  simp only [ExtraInv, MCInv, not_forall] at h
  obtain ⟨p, hp⟩ := h
  simp only [validateMoveCountConsistency]
  cases p
  · rw [fixMoveCount_fst_false _ hp]
    exact Bool.false_and _
  · rw [fixMoveCount_fst_false _ hp]
    exact Bool.and_false _

theorem extraInv_performChaosStrike (g : GomokuGame) (r : Rand) (pl : Player)
    (hi : ExtraInv g) : ExtraInv (performChaosStrike g r pl) := by
  simp only [performChaosStrike]
  split
  · exact hi
  · split <;> exact hi

theorem extraInv_performSelfMistake (g : GomokuGame) (r : Rand) (pl : Player)
    (hi : ExtraInv g) : ExtraInv (performSelfMistake g r pl) := by
  simp only [performSelfMistake]
  split
  · exact hi
  · split <;> exact hi

theorem extraInv_performPreciseStrikeForAI (g : GomokuGame) (r : Rand)
    (pl : Player) (hi : ExtraInv g) : ExtraInv (performPreciseStrikeForAI g r pl) := by
  simp only [performPreciseStrikeForAI]
  split
  · exact hi
  · split <;> exact hi

theorem extraInv_showStrategyGuide (g : GomokuGame) (pl : Player)
    (hi : ExtraInv g) : ExtraInv (showStrategyGuide g pl) := by
  simp only [showStrategyGuide]
  split <;> exact hi

theorem extraInv_generateNewBlindBox (g : GomokuGame) (r : Rand)
    (hi : ExtraInv g) : ExtraInv (generateNewBlindBox g r) := by
  simp only [generateNewBlindBox]
  split <;> exact hi

theorem extraInv_setHasExtraFlag (g1 : GomokuGame) (hi : ExtraInv g1) :
    ExtraInv (setHasExtraFlag g1) := hi

theorem extraInv_restoreCurrentAndFlag (g1 : GomokuGame) (orig : Player)
    (hi : ExtraInv g1) : ExtraInv (restoreCurrentAndFlag g1 orig) := hi

theorem extraInv_showItemNameIfNormal (g2 : GomokuGame) (hi : ExtraInv g2) :
    ExtraInv (showItemNameIfNormal g2) := by
  unfold showItemNameIfNormal
  split <;> exact hi

theorem extraInv_finishWithResult (g2 : GomokuGame) (result : GameResult)
    (hi : ExtraInv g2) : ExtraInv (finishWithResult g2 result) := hi

theorem extraInv_afterAccelGrant (ga : GomokuGame) (hi : ExtraInv ga) :
    ExtraInv (afterAccelGrant ga) := hi

theorem extraInv_triggerItemEffect (g : GomokuGame) (r : Rand) (it : ItemType)
    (pl : Player) (hi : ExtraInv g) : ExtraInv (triggerItemEffect g r it pl) := by
  cases it <;> simp only [triggerItemEffect]
  · exact extraInv_performChaosStrike g r pl hi
  · split
    · exact extraInv_performPreciseStrikeForAI g r pl hi
    · exact hi
  · exact extraInv_setHasExtraFlag _
      (extraInv_addExtraMove g r pl "加速落子" (some .acceleratedMove) hi)
  · split
    · exact extraInv_restoreCurrentAndFlag _ _
        (extraInv_addExtraMove g r pl "策略指引" (some .strategyGuide) hi)
    · exact extraInv_restoreCurrentAndFlag _ _
        (extraInv_addExtraMove (showStrategyGuide g pl) r pl "策略指引" (some .strategyGuide)
          (extraInv_showStrategyGuide g pl hi))
  · exact hi
  · exact extraInv_performSelfMistake g r pl hi
  · exact hi
  · exact hi

theorem extraInv_openBlindBox (g : GomokuGame) (r : Rand) (pos : Position)
    (hi : ExtraInv g) : ExtraInv (openBlindBoxAtPosition g r pos) := by
  simp only [openBlindBoxAtPosition]
  split
  · exact hi
  · refine extraInv_showItemNameIfNormal _ (extraInv_triggerItemEffect _ r _ _ ?_)
    exact hi

/-- Both turn-end branches finish with the consistency check, so the
invariant holds afterwards unconditionally. -/
theorem extraInv_makeMoveTurnEnd (g6 : GomokuGame) (r : Rand) :
    ExtraInv (makeMoveTurnEnd g6 r).2 := by
  simp only [makeMoveTurnEnd]
  split <;> exact extraInv_validate _

theorem extraInv_makeAIMoveFinish (g5 : GomokuGame) (r : Rand)
    (hi : ExtraInv g5) : ExtraInv (makeAIMoveFinish g5 r) := by
  simp only [makeAIMoveFinish]
  split
  · exact extraInv_validate _
  · exact hi

theorem extraInv_recordPlacedMove (g : GomokuGame) (pos : Position) (r : Rand)
    (b1 : Board) (hi : ExtraInv g) : ExtraInv (recordPlacedMove g pos r b1) := by
  simp only [recordPlacedMove]
  split <;> (refine extraInv_recordMoveEvent _ r _ _ _ _ ?_; exact hi)

theorem extraInv_clearSlipAndGuide (g2 : GomokuGame) (pos : Position)
    (hi : ExtraInv g2) : ExtraInv (clearSlipAndGuide g2 pos) := by
  simp only [clearSlipAndGuide]
  repeat' split
  all_goals exact hi

theorem extraInv_handleStrikeSelection (g : GomokuGame) (pos : Position)
    (triggerPlayer : Player) (hi : ExtraInv g) :
    ExtraInv (handleStrikeSelection g pos triggerPlayer).2 := by
  simp only [handleStrikeSelection]
  repeat' split
  all_goals exact hi

theorem extraInv_afterMoveCleanup (g2 : GomokuGame) (pos : Position) (r : Rand)
    (hi : ExtraInv g2) : ExtraInv (afterMoveCleanup g2 pos r) := by
  unfold afterMoveCleanup
  exact extraInv_openBlindBox _ r pos (extraInv_clearSlipAndGuide _ pos hi)

theorem extraInv_makeMovePlaced (g : GomokuGame) (pos : Position) (r : Rand)
    (b1 : Board) (hi : ExtraInv g) : ExtraInv (makeMovePlaced g pos r b1).2 := by
  have hg2 : ExtraInv (recordPlacedMove g pos r b1) :=
    extraInv_recordPlacedMove g pos r b1 hi
  have hg5 : ExtraInv (afterMoveCleanup (recordPlacedMove g pos r b1) pos r) :=
    extraInv_afterMoveCleanup _ pos r hg2
  simp only [makeMovePlaced]
  split
  · dsimp only
    exact extraInv_finishWithResult _ _ hg2
  · split
    · dsimp only
      exact extraInv_finishWithResult _ _ hg2
    · split
      · split
        · dsimp only
          exact extraInv_generateNewBlindBox _ r hg5
        · dsimp only
          exact hg5
      · exact extraInv_makeMoveTurnEnd _ r

theorem extraInv_makeMove (g : GomokuGame) (pos : Position) (r : Rand)
    (hi : ExtraInv g) : ExtraInv (makeMove g pos r).2 := by
  simp only [makeMove]
  split
  · dsimp only
    exact hi
  · split
    · dsimp only
      exact hi
    · split
      · split
        · dsimp only
          exact hi
        · exact extraInv_handleStrikeSelection _ pos _ hi
      · split
        · dsimp only
          exact hi
        · split
          · dsimp only
            exact hi
          · exact extraInv_makeMovePlaced _ pos r _ hi

theorem extraInv_aiClearSlip (g1 : GomokuGame) (hi : ExtraInv g1) :
    ExtraInv (aiClearSlip g1) := by
  simp only [aiClearSlip]
  split <;> exact hi

theorem extraInv_aiMaybeNewBox (g3 : GomokuGame) (r : Rand) (hi : ExtraInv g3) :
    ExtraInv (aiMaybeNewBox g3 r) := by
  simp only [aiMaybeNewBox]
  split
  · exact extraInv_generateNewBlindBox _ r hi
  · exact hi

theorem extraInv_aiMaybeAccel (g4 : GomokuGame) (r : Rand) (hi : ExtraInv g4) :
    ExtraInv (aiMaybeAccel g4 r) := by
  simp only [aiMaybeAccel]
  split
  · exact extraInv_afterAccelGrant _ (extraInv_addExtraMove _ r _ _ _ hi)
  · exact hi

theorem extraInv_aiAfterPlace (g1 : GomokuGame) (best : Position) (r : Rand)
    (hi : ExtraInv g1) : ExtraInv (aiAfterPlace g1 best r) := by
  unfold aiAfterPlace
  exact extraInv_makeAIMoveFinish _ r
    (extraInv_aiMaybeAccel _ r
      (extraInv_aiMaybeNewBox _ r
        (extraInv_openBlindBox _ r best (extraInv_aiClearSlip _ hi))))

theorem extraInv_aiPlaceAndFinish (g0 : GomokuGame) (best : Position) (r : Rand)
    (hi : ExtraInv g0) : ExtraInv (aiPlaceAndFinish g0 best r) := by
  simp only [aiPlaceAndFinish]
  split
  · exact extraInv_finishWithResult _ _ hi
  · split
    · exact extraInv_finishWithResult _ _ hi
    · exact extraInv_aiAfterPlace _ best r hi

theorem extraInv_maybeApplySlip (g : GomokuGame) (r : Rand) (hi : ExtraInv g) :
    ExtraInv (maybeApplySlip g r) := by
  simp only [maybeApplySlip]
  split <;> exact hi

theorem extraInv_makeAIMove (g : GomokuGame) (r : Rand) (hi : ExtraInv g) :
    ExtraInv (makeAIMove g r) := by
  simp only [makeAIMove]
  split
  · exact hi
  · split
    · exact extraInv_maybeApplySlip _ r hi
    · exact extraInv_aiPlaceAndFinish _ _ r (extraInv_maybeApplySlip _ r hi)

theorem extraInv_gameUndoMove (g : GomokuGame) (hi : ExtraInv g) :
    ExtraInv (gameUndoMove g).2 := by
  simp only [gameUndoMove]
  repeat' split
  all_goals exact hi

theorem extraInv_startNewGame (g : GomokuGame) : ExtraInv (startNewGame g) := by
  intro p
  cases p <;>
    simp [startNewGame, createGameMoveCountState, createPlayerMoveCount, PlayerMap.get]

theorem extraInv_pause (g : GomokuGame) (hi : ExtraInv g) : ExtraInv (pause g) := by
  unfold pause
  split <;> exact hi

theorem extraInv_resume (g : GomokuGame) (hi : ExtraInv g) : ExtraInv (resume g) := by
  unfold resume
  split <;> exact hi

/-- One externally-triggerable engine step: a move submission, one AI step,
undo, a new game, pause or resume. -/
inductive GameOp where
  | move (pos : Position) (r : Rand)
  | aiMove (r : Rand)
  | undo
  | newGame
  | pauseGame
  | resumeGame

/-- Apply one engine step. -/
def applyOp (g : GomokuGame) : GameOp → GomokuGame
  | .move pos r => (makeMove g pos r).2
  | .aiMove r => makeAIMove g r
  | .undo => (gameUndoMove g).2
  | .newGame => startNewGame g
  | .pauseGame => pause g
  | .resumeGame => resume g

/-- Apply a sequence of engine steps. -/
def applyOps (g : GomokuGame) : List GameOp → GomokuGame
  | [] => g
  | op :: rest => applyOps (applyOp g op) rest

theorem extraInv_applyOp {g : GomokuGame} (hi : ExtraInv g) (op : GameOp) :
    ExtraInv (applyOp g op) := by
  cases op with
  | move pos r => exact extraInv_makeMove g pos r hi
  | aiMove r => exact extraInv_makeAIMove g r hi
  | undo => exact extraInv_gameUndoMove g hi
  | newGame => exact extraInv_startNewGame g
  | pauseGame => exact extraInv_pause g hi
  | resumeGame => exact extraInv_resume g hi

/-- C2.  The extra-move bookkeeping invariant
`currentExtraMoves == extraMovesEarned - extraMovesUsed` holds for every
player after every sequence of engine steps (item triggers happen inside
moves), both from a fresh game and from any consistent state; and the
consistency check is self-healing: whatever the input state, its output
satisfies the invariant, and on drift it only reports `false` (overwriting
the counter) rather than signalling an error. -/
theorem extraMove_invariant :
    (∀ (size : Nat) (ops : List GameOp), ExtraInv (applyOps (GomokuGame.init size) ops)) ∧
    (∀ (g : GomokuGame) (ops : List GameOp), ExtraInv g → ExtraInv (applyOps g ops)) ∧
    (∀ g : GomokuGame, ExtraInv (validateMoveCountConsistency g).2) ∧
    (∀ g : GomokuGame, ¬ ExtraInv g → (validateMoveCountConsistency g).1 = false) := by
  have hseq : ∀ (ops : List GameOp) (g : GomokuGame), ExtraInv g →
      ExtraInv (applyOps g ops) := by
    intro ops
    induction ops with
    | nil => intro g hi; exact hi
    | cons op rest ih =>
      intro g hi
      exact ih _ (extraInv_applyOp hi op)
  refine ⟨?_, fun g ops hi => hseq ops g hi, extraInv_validate, validate_reports_drift⟩
  intro size ops
  apply hseq
  intro p
  cases p <;> simp [GomokuGame.init, createGameMoveCountState, createPlayerMoveCount,
    PlayerMap.get]

/-- Witness for C2 at a concrete input: a short concrete run from a fresh
game, and the self-healing equalities at that state. -/
theorem extraMove_invariant_witness :
    ExtraInv (applyOps (GomokuGame.init 15)
      [.newGame, .move ⟨7, 7⟩ ⟨1, "a", 0, 0, 0, 0, 0, 0, 0⟩]) ∧
    ExtraInv (validateMoveCountConsistency (GomokuGame.init 15)).2 ∧
    (validateMoveCountConsistency (GomokuGame.init 15)).1 ≠ false :=
  ⟨extraMove_invariant.1 15 [.newGame, .move ⟨7, 7⟩ ⟨1, "a", 0, 0, 0, 0, 0, 0, 0⟩],
   extraMove_invariant.2.2.1 (GomokuGame.init 15),
   fun hc => by
     have := extraMove_invariant.2.2.2 (GomokuGame.init 15)
     by_cases h : ExtraInv (GomokuGame.init 15)
     · have hne : (validateMoveCountConsistency (GomokuGame.init 15)).1 = true := by decide
       rw [hne] at hc
       exact Bool.noConfusion hc
     · exact h (fun p => by cases p <;> decide)⟩

/-- Witness for C10 at a concrete input. -/
theorem pause_resume_spec_witness :
    pause { GomokuGame.init 15 with gameState := .playing } =
      { { GomokuGame.init 15 with gameState := .playing } with gameState := GameState.paused } ∧
    pause (GomokuGame.init 15) = GomokuGame.init 15 ∧
    resume (GomokuGame.init 15) = GomokuGame.init 15 :=
  ⟨(pause_resume_spec _).1 rfl,
   ((pause_resume_spec _).2.2.2.2 (Or.inl rfl)).1,
   ((pause_resume_spec _).2.2.2.2 (Or.inl rfl)).2⟩

theorem Board.moves_removeStone (b : Board) (p : Position) :
    (b.removeStone p).2.moves = b.moves := by
  simp only [Board.removeStone]
  split
  · rfl
  · split
    · rfl
    · exact Board.moves_setCell b p none

theorem handleStrike_fst (g : GomokuGame) (pos : Position) (tp : Player) :
    (handleStrikeSelection g pos tp).1 = false := by
  simp only [handleStrikeSelection]
  split <;> rfl

theorem handleStrike_moves (g : GomokuGame) (pos : Position) (tp : Player) :
    (handleStrikeSelection g pos tp).2.board.moves = g.board.moves := by
  simp only [handleStrikeSelection]
  split
  · dsimp only
    repeat' split
    all_goals first
      | rfl
      | exact Board.moves_removeStone g.board pos
  · rfl

theorem handleStrike_history (g : GomokuGame) (pos : Position) (tp : Player) :
    (handleStrikeSelection g pos tp).2.moveHistory = g.moveHistory := by
  simp only [handleStrikeSelection]
  split
  · dsimp only
    repeat' split
    all_goals rfl
  · rfl

theorem handleStrike_invalid (g : GomokuGame) (pos : Position) (tp : Player)
    (h : ¬ g.board.getStone pos = some tp.opponent) :
    handleStrikeSelection g pos tp = (false, g) := by
  simp only [handleStrikeSelection]
  rw [if_neg h]

/-- C5.  While the sub-state is `selectingStrikeTarget`, every `makeMove`
call reports `false`, never pushes a move on the board's stack nor on the
history (it never places a stone); and when the submitted cell does not hold
a stone of the strike-triggerer's opponent the whole state is returned
unchanged (in particular the sub-state is still `selectingStrikeTarget`). -/
theorem strike_selection_spec (g : GomokuGame) (pos : Position) (r : Rand)
    (hs : g.gameSubState = GameSubState.selectingStrikeTarget) :
    (makeMove g pos r).1 = false ∧
    (makeMove g pos r).2.board.moves = g.board.moves ∧
    (makeMove g pos r).2.moveHistory = g.moveHistory ∧
    (∀ tp : Player, g.preciseStrikePlayer = some tp →
      ¬ g.board.getStone pos = some tp.opponent →
      makeMove g pos r = (false, g)) := by
  simp only [makeMove]
  split
  · exact ⟨rfl, rfl, rfl, fun tp _ _ => rfl⟩
  · split
    · exact ⟨rfl, rfl, rfl, fun tp _ _ => rfl⟩
    · split
      · next hp =>
        refine ⟨rfl, rfl, rfl, fun tp htp _ => ?_⟩
        rw [hp] at htp
        exact Option.noConfusion htp
      · next tp0 hp =>
        refine ⟨handleStrike_fst g pos tp0, handleStrike_moves g pos tp0,
          handleStrike_history g pos tp0, fun tp htp hne => ?_⟩
        rw [hp] at htp
        cases Option.some.inj htp
        exact handleStrike_invalid g pos tp0 hne

/-- Witness for C5 at a concrete input: the armed-strike demo state with an
empty target cell. -/
theorem strike_selection_spec_witness :
    (makeMove strikeDemoGame ⟨0, 0⟩ demoRand).1 = false ∧
    (makeMove strikeDemoGame ⟨0, 0⟩ demoRand).2.board.moves =
      strikeDemoGame.board.moves ∧
    (makeMove strikeDemoGame ⟨0, 0⟩ demoRand).2.moveHistory =
      strikeDemoGame.moveHistory ∧
    (∀ tp : Player, strikeDemoGame.preciseStrikePlayer = some tp →
      ¬ strikeDemoGame.board.getStone ⟨0, 0⟩ = some tp.opponent →
      makeMove strikeDemoGame ⟨0, 0⟩ demoRand = (false, strikeDemoGame)) :=
  strike_selection_spec strikeDemoGame ⟨0, 0⟩ demoRand rfl

theorem pickRandomPositions_length (draws : List Nat) (avail : List Position) :
    (pickRandomPositions avail draws).length = min draws.length avail.length := by
  induction draws generalizing avail with
  | nil => cases avail <;> simp [pickRandomPositions]
  | cons d ds ih =>
    cases avail with
    | nil => simp [pickRandomPositions]
    | cons a as =>
      have hlt : d % (as.length + 1) < as.length + 1 :=
        Nat.mod_lt _ (Nat.succ_pos _)
      simp only [pickRandomPositions, List.length_cons, ih]
      rw [@List.length_eraseIdx_of_lt _ (a :: as) _ hlt]
      simp only [List.length_cons]
      omega

theorem pickRandomPositions_mem (draws : List Nat) (avail : List Position) :
    ∀ q ∈ pickRandomPositions avail draws, q ∈ avail := by
  induction draws generalizing avail with
  | nil =>
    intro q hq
    cases avail <;> simp [pickRandomPositions] at hq
  | cons d ds ih =>
    intro q hq
    cases avail with
    | nil => simp [pickRandomPositions] at hq
    | cons a as =>
      simp only [pickRandomPositions, List.mem_cons] at hq
      rcases hq with hq | hq
      · have hlt : d % (a :: as).length < (a :: as).length :=
          Nat.mod_lt _ (Nat.succ_pos _)
        rw [hq, List.getD_eq_getElem _ _ hlt]
        exact List.getElem_mem hlt
      · exact List.eraseIdx_subset _ _ (ih _ q hq)

/-- C6 (amended).  A `makeMove` outside a non-empty allowed-position set is
rejected with the whole state unchanged (outside the strike-selection
sub-state, whose branch never reaches this guard); and the allowed set the
slip penalty installs has `min 3 (number of empty cells)` members — exactly 3
only when at least 3 cells are empty — each an empty, in-bounds cell. -/
theorem slip_penalty_spec (g : GomokuGame) (pos : Position) (r : Rand)
    (hsub : ¬ g.gameSubState = GameSubState.selectingStrikeTarget)
    (hne : g.allowedPositions ≠ [])
    (hnot : isAllowedPosition g.allowedPositions pos = false) :
    makeMove g pos r = (false, g) ∧
    (applySlipPenalty g r).allowedPositions.length =
      min 3 (emptyPositions g.board).length ∧
    (∀ q ∈ (applySlipPenalty g r).allowedPositions,
      g.board.isEmpty q = true) := by
  have hnot' : ¬ isAllowedPosition g.allowedPositions pos = true := by
    rw [hnot]
    exact Bool.false_ne_true
  refine ⟨?_, ?_, ?_⟩
  · simp only [makeMove]
    split
    · rfl
    · split
      · rfl
      · rw [if_pos (And.intro hne hnot')]
  · rw [show (applySlipPenalty g r).allowedPositions =
        pickRandomPositions (emptyPositions g.board) [r.slip1, r.slip2, r.slip3]
        from rfl,
      pickRandomPositions_length]
    rfl
  · intro q hq
    have h1 : q ∈ emptyPositions g.board :=
      pickRandomPositions_mem [r.slip1, r.slip2, r.slip3] (emptyPositions g.board) q hq
    exact (List.mem_filter.mp h1).2

/-- Counterexample to C6 as stated: with only three empty cells left, placing
at one of them activates the next player's hand-slip penalty with an
allowed-position set of 2 cells, not 3. -/
theorem slip_three_counterexample :
    (makeMove slipDemoGame ⟨0, 0⟩ demoRand).2.gameSubState =
      GameSubState.handSlipPenalty ∧
    (makeMove slipDemoGame ⟨0, 0⟩ demoRand).2.allowedPositions.length = 2 := by
  decide

/-- Witness for C6 at a concrete input: a move outside the two allowed cells
is rejected unchanged, and the installed set has `min 3 #empty` members. -/
theorem slip_penalty_spec_witness :
    makeMove slipActiveGame ⟨4, 4⟩ demoRand = (false, slipActiveGame) ∧
    (applySlipPenalty slipActiveGame demoRand).allowedPositions.length =
      min 3 (emptyPositions slipActiveGame.board).length ∧
    (∀ q ∈ (applySlipPenalty slipActiveGame demoRand).allowedPositions,
      slipActiveGame.board.isEmpty q = true) :=
  slip_penalty_spec slipActiveGame ⟨4, 4⟩ demoRand (by decide) (by decide) (by decide)

theorem Board.getStone_removeStone_self (b : Board) (p : Position) (hwf : b.WF)
    (hvalid : b.isValidPosition p = true) (hne : b.getStone p ≠ none) :
    (b.removeStone p).2.getStone p = none := by
  obtain ⟨hy, hx⟩ := hwf.indices hvalid
  simp only [Board.removeStone]
  rw [if_neg (fun hc => hc hvalid)]
  rw [if_neg (fun hc => hne (by
    unfold Board.getStone
    rw [if_pos hvalid]
    exact eq_of_beq hc))]
  show (b.setCell p none).getStone p = none
  unfold Board.getStone
  rw [Board.isValidPosition_setCell, if_pos hvalid]
  exact Board.cellAt_setCell_self none hy hx

theorem Board.getStone_removeStone_ne (b : Board) (p q : Position)
    (h : q.x.toNat ≠ p.x.toNat ∨ q.y.toNat ≠ p.y.toNat) :
    (b.removeStone p).2.getStone q = b.getStone q := by
  simp only [Board.removeStone]
  split
  · rfl
  · split
    · rfl
    · exact Board.getStone_setCell_ne b p q none h

theorem mem_stonesOf_getStone {b : Board} {pl : Player} {q : Position}
    (h : q ∈ stonesOf b pl) : b.getStone q = some pl :=
  eq_of_beq (List.mem_filter.mp h).2

theorem chaosTarget_mem (g : GomokuGame) (r : Rand) (p : Player)
    (hpos : (stonesOf g.board p.opponent).length > 0) :
    chaosTarget g r p ∈ stonesOf g.board p.opponent := by
  have hlt : r.pick % (stonesOf g.board p.opponent).length <
      (stonesOf g.board p.opponent).length := Nat.mod_lt _ hpos
  rw [chaosTarget, List.getD_eq_getElem _ _ hlt]
  exact List.getElem_mem hlt

/-- C4 (amended).  A CHAOS_STRIKE against an immune opponent leaves the board
untouched and consumes ALL of that opponent's stacked TOUGHEN_HEART effects
at once (`removeEffect` filters every entry of the type, so none remain);
without immunity, when the opponent has at least one stone, the randomly
chosen opponent stone's cell (which did hold their stone) is cleared, every
other cell and the effect lists are unchanged. -/
theorem chaos_strike_spec (g : GomokuGame) (r : Rand) (p : Player)
    (hwf : g.board.WF) :
    (hasToughenHeart g p.opponent = true →
      (performChaosStrike g r p).board = g.board ∧
      (performChaosStrike g r p).activeEffects.get p.opponent =
        (g.activeEffects.get p.opponent).filter
          (fun effect => effect.itemType ≠ ItemType.toughenHeart) ∧
      hasToughenHeart (performChaosStrike g r p) p.opponent = false) ∧
    (hasToughenHeart g p.opponent = false →
      (stonesOf g.board p.opponent).length > 0 →
      g.board.getStone (chaosTarget g r p) = some p.opponent ∧
      (performChaosStrike g r p).board.getStone (chaosTarget g r p) = none ∧
      (∀ q : Position,
        q.x.toNat ≠ (chaosTarget g r p).x.toNat ∨
          q.y.toNat ≠ (chaosTarget g r p).y.toNat →
        (performChaosStrike g r p).board.getStone q = g.board.getStone q) ∧
      (performChaosStrike g r p).activeEffects = g.activeEffects) := by
  constructor
  · intro himm
    simp only [performChaosStrike]
    rw [if_pos himm]
    refine ⟨rfl, ?_, ?_⟩
    · simp only [showNotification, removeEffect, PlayerMap.get_set_same]
    · simp only [hasToughenHeart, showNotification, removeEffect,
        PlayerMap.get_set_same]
      rw [Bool.eq_false_iff]
      intro hc
      obtain ⟨e, he, hbe⟩ := List.any_eq_true.mp hc
      exact of_decide_eq_true (List.mem_filter.mp he).2 (eq_of_beq hbe)
  · intro himm hpos
    have himm' : ¬ hasToughenHeart g p.opponent = true := by
      rw [himm]
      exact Bool.false_ne_true
    have hmem : chaosTarget g r p ∈ stonesOf g.board p.opponent :=
      chaosTarget_mem g r p hpos
    have hstone : g.board.getStone (chaosTarget g r p) = some p.opponent :=
      mem_stonesOf_getStone hmem
    have hvalid : g.board.isValidPosition (chaosTarget g r p) = true := by
      by_contra hnv
      have hnone : g.board.getStone (chaosTarget g r p) = none := by
        unfold Board.getStone
        rw [if_neg hnv]
      rw [hnone] at hstone
      exact Option.noConfusion hstone
    have hne : g.board.getStone (chaosTarget g r p) ≠ none := by
      rw [hstone]
      exact fun hc => Option.noConfusion hc
    simp only [performChaosStrike]
    rw [if_neg himm', if_pos hpos]
    exact ⟨hstone,
      Board.getStone_removeStone_self g.board (chaosTarget g r p) hwf hvalid hne,
      fun q hq => Board.getStone_removeStone_ne g.board (chaosTarget g r p) q hq,
      rfl⟩

/-- Counterexample to C4 as stated: two stacked TOUGHEN_HEART effects are both
consumed by a single CHAOS_STRIKE (2 before, 0 after — not exactly one). -/
theorem toughen_heart_counterexample :
    (chaosDemoGame.activeEffects.get Player.white).countP
      (fun it => it.itemType == ItemType.toughenHeart) = 2 ∧
    ((performChaosStrike chaosDemoGame demoRand Player.black).activeEffects.get
      Player.white).countP (fun it => it.itemType == ItemType.toughenHeart) = 0 ∧
    (performChaosStrike chaosDemoGame demoRand Player.black).board =
      chaosDemoGame.board := by
  decide

/-- Witness for C4 at concrete inputs: the immune branch on `chaosDemoGame`
and the stone-removing branch on `slipDemoGame` (WHITE has stones, no
immunity). -/
theorem chaos_strike_spec_witness :
    (performChaosStrike chaosDemoGame demoRand Player.black).board =
      chaosDemoGame.board ∧
    (performChaosStrike slipDemoGame demoRand Player.black).board.getStone
      (chaosTarget slipDemoGame demoRand Player.black) = none :=
  ⟨((chaos_strike_spec chaosDemoGame demoRand Player.black (by decide)).1
      (by decide)).1,
   (((chaos_strike_spec slipDemoGame demoRand Player.black (by decide)).2
      (by decide)) (by decide)).2.1⟩

theorem hist_validate (g : GomokuGame) :
    (validateMoveCountConsistency g).2.moveHistory = g.moveHistory := rfl

theorem hist_recordMoveEvent (g : GomokuGame) (r : Rand) (t : MoveEventType)
    (d : String) (it : Option ItemType) (em : Option Int) :
    (recordMoveEvent g r t d it em).moveHistory = g.moveHistory := rfl

theorem hist_addExtraMove (g : GomokuGame) (r : Rand) (pl : Player) (src : String)
    (eff : Option ItemType) :
    (addExtraMove g r pl src eff).moveHistory = g.moveHistory := rfl

theorem hist_setHasExtraFlag (g : GomokuGame) :
    (setHasExtraFlag g).moveHistory = g.moveHistory := rfl

theorem hist_restoreCurrentAndFlag (g : GomokuGame) (orig : Player) :
    (restoreCurrentAndFlag g orig).moveHistory = g.moveHistory := rfl

theorem hist_afterAccelGrant (g : GomokuGame) :
    (afterAccelGrant g).moveHistory = g.moveHistory := rfl

theorem hist_finishWithResult (g : GomokuGame) (res : GameResult) :
    (finishWithResult g res).moveHistory = g.moveHistory := rfl

theorem hist_showItemNameIfNormal (g : GomokuGame) :
    (showItemNameIfNormal g).moveHistory = g.moveHistory := by
  simp only [showItemNameIfNormal]
  split <;> rfl

theorem hist_performChaosStrike (g : GomokuGame) (r : Rand) (pl : Player) :
    (performChaosStrike g r pl).moveHistory = g.moveHistory := by
  simp only [performChaosStrike]
  repeat' split
  all_goals rfl

theorem hist_performSelfMistake (g : GomokuGame) (r : Rand) (pl : Player) :
    (performSelfMistake g r pl).moveHistory = g.moveHistory := by
  simp only [performSelfMistake]
  repeat' split
  all_goals rfl

theorem hist_performPreciseStrikeForAI (g : GomokuGame) (r : Rand) (pl : Player) :
    (performPreciseStrikeForAI g r pl).moveHistory = g.moveHistory := by
  simp only [performPreciseStrikeForAI]
  repeat' split
  all_goals rfl

theorem hist_showStrategyGuide (g : GomokuGame) (pl : Player) :
    (showStrategyGuide g pl).moveHistory = g.moveHistory := by
  simp only [showStrategyGuide]
  split <;> rfl

theorem hist_generateNewBlindBox (g : GomokuGame) (r : Rand) :
    (generateNewBlindBox g r).moveHistory = g.moveHistory := by
  simp only [generateNewBlindBox]
  split <;> rfl

theorem hist_triggerItemEffect (g : GomokuGame) (r : Rand) (it : ItemType)
    (pl : Player) : (triggerItemEffect g r it pl).moveHistory = g.moveHistory := by
  cases it with
  | chaosStrike => exact hist_performChaosStrike g r pl
  | preciseStrike =>
    simp only [triggerItemEffect]
    split
    · exact hist_performPreciseStrikeForAI g r pl
    · rfl
  | acceleratedMove =>
    simp only [triggerItemEffect]
    rw [hist_setHasExtraFlag, hist_addExtraMove]
  | strategyGuide =>
    simp only [triggerItemEffect]
    split
    · rw [hist_restoreCurrentAndFlag, hist_addExtraMove]
    · rw [hist_restoreCurrentAndFlag, hist_addExtraMove, hist_showStrategyGuide]
  | toughenHeart => rfl
  | selfMistake => exact hist_performSelfMistake g r pl
  | opponentAcceleration => rfl
  | slipPenalty => rfl

theorem hist_openBlindBox (g : GomokuGame) (r : Rand) (pos : Position) :
    (openBlindBoxAtPosition g r pos).moveHistory = g.moveHistory := by
  simp only [openBlindBoxAtPosition]
  split
  · rfl
  · rw [hist_showItemNameIfNormal, hist_triggerItemEffect]

theorem hist_aiClearSlip (g : GomokuGame) :
    (aiClearSlip g).moveHistory = g.moveHistory := by
  simp only [aiClearSlip]
  split <;> rfl

theorem hist_aiMaybeNewBox (g : GomokuGame) (r : Rand) :
    (aiMaybeNewBox g r).moveHistory = g.moveHistory := by
  simp only [aiMaybeNewBox]
  split
  · exact hist_generateNewBlindBox g r
  · rfl

theorem hist_aiMaybeAccel (g : GomokuGame) (r : Rand) :
    (aiMaybeAccel g r).moveHistory = g.moveHistory := by
  simp only [aiMaybeAccel]
  split
  · rw [hist_afterAccelGrant, hist_addExtraMove]
  · rfl

theorem hist_makeAIMoveFinish (g : GomokuGame) (r : Rand) :
    (makeAIMoveFinish g r).moveHistory = g.moveHistory := by
  simp only [makeAIMoveFinish]
  split
  · rw [hist_validate]
    rfl
  · rfl

theorem hist_aiAfterPlace (g : GomokuGame) (best : Position) (r : Rand) :
    (aiAfterPlace g best r).moveHistory = g.moveHistory := by
  unfold aiAfterPlace
  rw [hist_makeAIMoveFinish, hist_aiMaybeAccel, hist_aiMaybeNewBox,
    hist_openBlindBox, hist_aiClearSlip]

theorem hist_aiPlaceAndFinish (g : GomokuGame) (best : Position) (r : Rand) :
    (aiPlaceAndFinish g best r).moveHistory =
      g.moveHistory ++
        [{ position := best, player := g.currentPlayer, timestamp := r.now }] := by
  simp only [aiPlaceAndFinish]
  split
  · rw [hist_finishWithResult]
  · split
    · rw [hist_finishWithResult]
    · rw [hist_aiAfterPlace]

theorem makeAIMove_eq_place (g : GomokuGame) (r : Rand)
    (hplay : g.gameState = GameState.playing)
    (hslip : g.nextPlayerHasSlipPenalty = false)
    (hne : aiCandidates g ≠ []) :
    makeAIMove g r =
      aiPlaceAndFinish g (selectBestPosition g.board g.currentPlayer (aiCandidates g)) r := by
  have hg0 : maybeApplySlip g r = g := by
    simp only [maybeApplySlip]
    rw [if_neg (fun hc => by rw [hslip] at hc; exact Bool.noConfusion hc)]
  simp only [makeAIMove]
  rw [hg0, if_neg (fun hc => hc hplay),
    if_neg (fun hc => hne (List.length_eq_zero.mp hc))]

theorem selectStep_foldl_spec (b : Board) (cur : Player) (l : List Position) :
    ∀ (p : Position) (s : Int),
    (l.foldl (selectStep b cur) (p, some s) = (p, some s) ∧
      ∀ x ∈ l, evaluatePosition b cur x ≤ s) ∨
    (∃ l1 l2,
      l = l1 ++ (l.foldl (selectStep b cur) (p, some s)).1 :: l2 ∧
      s < evaluatePosition b cur (l.foldl (selectStep b cur) (p, some s)).1 ∧
      (∀ x ∈ l1, evaluatePosition b cur x <
        evaluatePosition b cur (l.foldl (selectStep b cur) (p, some s)).1) ∧
      (∀ x ∈ l2, evaluatePosition b cur x ≤
        evaluatePosition b cur (l.foldl (selectStep b cur) (p, some s)).1)) := by
  induction l with
  | nil =>
    intro p s
    left
    exact ⟨rfl, by simp⟩
  | cons q l' ih =>
    intro p s
    by_cases hq : s < evaluatePosition b cur q
    · have hstep : selectStep b cur (p, some s) q =
          (q, some (evaluatePosition b cur q)) := by
        simp only [selectStep]
        rw [if_pos hq]
      rw [List.foldl_cons, hstep]
      rcases ih q (evaluatePosition b cur q) with ⟨heq, hall⟩ |
        ⟨l1, l2, hdec, hgt, hlt, hle⟩
      · right
        refine ⟨[], l', ?_, ?_, fun x hx => absurd hx (List.not_mem_nil x), ?_⟩
        · rw [heq]
          rfl
        · rw [heq]
          exact hq
        · rw [heq]
          exact hall
      · right
        refine ⟨q :: l1, l2, ?_, lt_trans hq hgt, ?_, hle⟩
        · conv_lhs => rw [hdec]
          rfl
        · intro x hx
          rcases List.mem_cons.mp hx with rfl | hx1
          · exact hgt
          · exact hlt x hx1
    · have hqle : evaluatePosition b cur q ≤ s := le_of_not_lt hq
      have hstep : selectStep b cur (p, some s) q = (p, some s) := by
        simp only [selectStep]
        rw [if_neg hq]
      rw [List.foldl_cons, hstep]
      rcases ih p s with ⟨heq, hall⟩ | ⟨l1, l2, hdec, hgt, hlt, hle⟩
      · left
        refine ⟨heq, ?_⟩
        intro x hx
        rcases List.mem_cons.mp hx with rfl | hx1
        · exact hqle
        · exact hall x hx1
      · right
        refine ⟨q :: l1, l2, ?_, hgt, ?_, hle⟩
        · conv_lhs => rw [hdec]
          rfl
        · intro x hx
          rcases List.mem_cons.mp hx with rfl | hx1
          · exact lt_of_le_of_lt hqle hgt
          · exact hlt x hx1

theorem selectBestPosition_spec (b : Board) (cur : Player) (c : Position)
    (cs : List Position) :
    ∃ l1 l2,
      c :: cs = l1 ++ selectBestPosition b cur (c :: cs) :: l2 ∧
      (∀ x ∈ l1, evaluatePosition b cur x <
        evaluatePosition b cur (selectBestPosition b cur (c :: cs))) ∧
      (∀ x ∈ l2, evaluatePosition b cur x ≤
        evaluatePosition b cur (selectBestPosition b cur (c :: cs))) := by
  have hsel : selectBestPosition b cur (c :: cs) =
      (cs.foldl (selectStep b cur) (c, some (evaluatePosition b cur c))).1 := rfl
  rw [hsel]
  rcases selectStep_foldl_spec b cur cs c (evaluatePosition b cur c) with
    ⟨heq, hall⟩ | ⟨l1, l2, hdec, hgt, hlt, hle⟩
  · refine ⟨[], cs, ?_, fun x hx => absurd hx (List.not_mem_nil x), ?_⟩
    · rw [heq]
      rfl
    · rw [heq]
      exact hall
  · refine ⟨c :: l1, l2, ?_, ?_, hle⟩
    · conv_lhs => rw [hdec]
      rfl
    · intro x hx
      rcases List.mem_cons.mp hx with rfl | hx1
      · exact hgt
      · exact hlt x hx1

/-- C9.  When it is the AI's turn in a running game (no pending slip penalty
here, candidates non-empty), `makeAIMove` appends exactly one move at
`selectBestPosition` over the candidate cells; that cell is a maximum of the
position-evaluation heuristic among the candidates and, on ties, the first
maximum in candidate order; and the candidates are the allowed cells under an
active hand-slip restriction, otherwise every empty cell in row-major order
(`y` outer, `x` inner). -/
theorem ai_selection_spec (g : GomokuGame) (r : Rand)
    (hplay : g.gameState = GameState.playing)
    (hslip : g.nextPlayerHasSlipPenalty = false)
    (c : Position) (cs : List Position) (hcands : aiCandidates g = c :: cs) :
    (makeAIMove g r).moveHistory =
      g.moveHistory ++
        [{ position := selectBestPosition g.board g.currentPlayer (aiCandidates g),
           player := g.currentPlayer, timestamp := r.now }] ∧
    (∃ l1 l2,
      aiCandidates g =
        l1 ++ selectBestPosition g.board g.currentPlayer (aiCandidates g) :: l2 ∧
      (∀ x ∈ l1, evaluatePosition g.board g.currentPlayer x <
        evaluatePosition g.board g.currentPlayer
          (selectBestPosition g.board g.currentPlayer (aiCandidates g))) ∧
      (∀ x ∈ l2, evaluatePosition g.board g.currentPlayer x ≤
        evaluatePosition g.board g.currentPlayer
          (selectBestPosition g.board g.currentPlayer (aiCandidates g)))) ∧
    aiCandidates g =
      (if g.gameSubState = GameSubState.handSlipPenalty ∧ g.allowedPositions ≠ []
        then g.allowedPositions
        else (rowMajor g.board.size).filter (fun q => g.board.isEmpty q)) := by
  have hne : aiCandidates g ≠ [] := by
    rw [hcands]
    exact List.cons_ne_nil c cs
  refine ⟨?_, ?_, rfl⟩
  · rw [makeAIMove_eq_place g r hplay hslip hne, hist_aiPlaceAndFinish]
  · rw [hcands]
    exact selectBestPosition_spec g.board g.currentPlayer c cs

/-- Witness for C9 at a concrete input: the empty 3x3 game in play. -/
theorem ai_selection_spec_witness :
    (makeAIMove aiDemoGame demoRand).moveHistory =
      aiDemoGame.moveHistory ++
        [{ position := selectBestPosition aiDemoGame.board aiDemoGame.currentPlayer
             (aiCandidates aiDemoGame),
           player := aiDemoGame.currentPlayer, timestamp := demoRand.now }] ∧
    (∃ l1 l2,
      aiCandidates aiDemoGame =
        l1 ++ selectBestPosition aiDemoGame.board aiDemoGame.currentPlayer
          (aiCandidates aiDemoGame) :: l2 ∧
      (∀ x ∈ l1, evaluatePosition aiDemoGame.board aiDemoGame.currentPlayer x <
        evaluatePosition aiDemoGame.board aiDemoGame.currentPlayer
          (selectBestPosition aiDemoGame.board aiDemoGame.currentPlayer
            (aiCandidates aiDemoGame))) ∧
      (∀ x ∈ l2, evaluatePosition aiDemoGame.board aiDemoGame.currentPlayer x ≤
        evaluatePosition aiDemoGame.board aiDemoGame.currentPlayer
          (selectBestPosition aiDemoGame.board aiDemoGame.currentPlayer
            (aiCandidates aiDemoGame)))) ∧
    aiCandidates aiDemoGame =
      (if aiDemoGame.gameSubState = GameSubState.handSlipPenalty ∧
          aiDemoGame.allowedPositions ≠ []
        then aiDemoGame.allowedPositions
        else (rowMajor aiDemoGame.board.size).filter
          (fun q => aiDemoGame.board.isEmpty q)) :=
  ai_selection_spec aiDemoGame demoRand rfl rfl ⟨0, 0⟩
    [⟨1, 0⟩, ⟨2, 0⟩, ⟨0, 1⟩, ⟨1, 1⟩, ⟨2, 1⟩, ⟨0, 2⟩, ⟨1, 2⟩, ⟨2, 2⟩] (by decide)

theorem isValid_bounds {b : Board} {q : Position}
    (h : b.isValidPosition q = true) :
    0 ≤ q.x ∧ q.x < (b.size : Int) ∧ 0 ≤ q.y ∧ q.y < (b.size : Int) := by
  simp only [Board.isValidPosition, Bool.and_eq_true, decide_eq_true_eq] at h
  tauto

theorem isValid_false_of {b : Board} {q : Position}
    (h : q.x < 0 ∨ (b.size : Int) ≤ q.x ∨ q.y < 0 ∨ (b.size : Int) ≤ q.y) :
    b.isValidPosition q = false := by
  rw [Bool.eq_false_iff]
  intro hc
  have hb := isValid_bounds hc
  omega

theorem cellOk_false_of_invalid {b : Board} {player : Player} {q : Position}
    (h : b.isValidPosition q = false) : cellOk b player q = false := by
  simp only [cellOk, h, Bool.false_and]

theorem range_map_shift {α : Type} (f : Nat → α) (k : Nat) :
    (List.range (k + 1)).map f = f 0 :: (List.range k).map (fun i => f (i + 1)) := by
  rw [List.range_succ_eq_map, List.map_cons, List.map_map]
  rfl

theorem walkDir_spec (b : Board) (player : Player) (dx dy : Int) :
    ∀ (fuel : Nat) (x y : Int),
    ∃ k, k ≤ fuel ∧
      walkDir b player dx dy fuel x y =
        (List.range k).map
          (fun i : Nat => (⟨x + (i : Int) * dx, y + (i : Int) * dy⟩ : Position)) ∧
      (∀ i : Nat, i < k →
        cellOk b player ⟨x + (i : Int) * dx, y + (i : Int) * dy⟩ = true) ∧
      (k = fuel ∨
        cellOk b player ⟨x + (k : Int) * dx, y + (k : Int) * dy⟩ = false) := by
  intro fuel
  induction fuel with
  | zero =>
    intro x y
    exact ⟨0, le_refl 0, rfl, fun i hi => absurd hi (Nat.not_lt_zero i), Or.inl rfl⟩
  | succ fuel ih =>
    intro x y
    by_cases hc : cellOk b player ⟨x, y⟩ = true
    · obtain ⟨k, hk, hlist, hall, hend⟩ := ih (x + dx) (y + dy)
      have hc' : (b.isValidPosition ⟨x, y⟩ && (b.getStone ⟨x, y⟩ == some player)) = true := hc
      refine ⟨k + 1, Nat.succ_le_succ hk, ?_, ?_, ?_⟩
      · show walkDir b player dx dy (fuel + 1) x y = _
        simp only [walkDir]
        rw [if_pos hc', hlist, range_map_shift]
        congr 1
        · simp
        · apply List.map_congr_left
          intro i hi
          simp only [Position.mk.injEq]
          constructor <;> (push_cast; ring)
      · intro i hi
        cases i with
        | zero => simpa using hc
        | succ j =>
          have hj : j < k := Nat.lt_of_succ_lt_succ hi
          have hja := hall j hj
          have hposeq : (⟨x + (↑(j + 1)) * dx, y + (↑(j + 1)) * dy⟩ : Position) =
              ⟨x + dx + ↑j * dx, y + dy + ↑j * dy⟩ := by
            simp only [Position.mk.injEq]
            constructor <;> (push_cast; ring)
          rw [hposeq]
          exact hja
      · rcases hend with hend | hend
        · left
          omega
        · right
          have hposeq : (⟨x + (↑(k + 1)) * dx, y + (↑(k + 1)) * dy⟩ : Position) =
              ⟨x + dx + ↑k * dx, y + dy + ↑k * dy⟩ := by
            simp only [Position.mk.injEq]
            constructor <;> (push_cast; ring)
          rw [hposeq]
          exact hend
    · refine ⟨0, Nat.zero_le _, ?_, fun i hi => absurd hi (Nat.not_lt_zero i),
        Or.inr ?_⟩
      · show walkDir b player dx dy (fuel + 1) x y = _
        simp only [walkDir]
        have hcn : ¬ ((b.isValidPosition ⟨x, y⟩ &&
            (b.getStone ⟨x, y⟩ == some player)) = true) := fun hcc => hc hcc
        rw [if_neg hcn]
        rfl
      · have hcf : cellOk b player ⟨x, y⟩ = false := Bool.eq_false_iff.mpr hc
        simpa using hcf

theorem walkArm_max (b : Board) (player : Player) (dx dy x0 y0 : Int)
    (hstop : b.isValidPosition
      ⟨x0 + (b.size : Int) * dx, y0 + (b.size : Int) * dy⟩ = false) :
    ∃ k : Nat,
      walkDir b player dx dy b.size x0 y0 =
        (List.range k).map
          (fun i : Nat => (⟨x0 + (i : Int) * dx, y0 + (i : Int) * dy⟩ : Position)) ∧
      (∀ i : Nat, i < k →
        cellOk b player ⟨x0 + (i : Int) * dx, y0 + (i : Int) * dy⟩ = true) ∧
      cellOk b player ⟨x0 + (k : Int) * dx, y0 + (k : Int) * dy⟩ = false := by
  obtain ⟨k, hk, hlist, hall, hend⟩ := walkDir_spec b player dx dy b.size x0 y0
  refine ⟨k, hlist, hall, ?_⟩
  rcases hend with hend | hend
  · rw [hend]
    exact cellOk_false_of_invalid hstop
  · exact hend

theorem checkDirection_max (b : Board) (pos : Position) (player : Player)
    (dx dy : Int)
    (hstopF : b.isValidPosition
      ⟨pos.x + dx + (b.size : Int) * dx, pos.y + dy + (b.size : Int) * dy⟩ = false)
    (hstopB : b.isValidPosition
      ⟨pos.x - dx + (b.size : Int) * (-dx),
       pos.y - dy + (b.size : Int) * (-dy)⟩ = false) :
    ∃ m n : Nat,
      checkDirection b pos player dx dy =
        ((List.range m).map
          (fun i : Nat =>
            (⟨pos.x - dx + (i : Int) * (-dx), pos.y - dy + (i : Int) * (-dy)⟩ :
              Position))).reverse ++
          pos :: (List.range n).map
            (fun i : Nat =>
              (⟨pos.x + dx + (i : Int) * dx, pos.y + dy + (i : Int) * dy⟩ :
                Position)) ∧
      (∀ i : Nat, i < m →
        cellOk b player
          ⟨pos.x - dx + (i : Int) * (-dx), pos.y - dy + (i : Int) * (-dy)⟩ = true) ∧
      (∀ i : Nat, i < n →
        cellOk b player
          ⟨pos.x + dx + (i : Int) * dx, pos.y + dy + (i : Int) * dy⟩ = true) ∧
      cellOk b player
        ⟨pos.x - dx + (m : Int) * (-dx), pos.y - dy + (m : Int) * (-dy)⟩ = false ∧
      cellOk b player
        ⟨pos.x + dx + (n : Int) * dx, pos.y + dy + (n : Int) * dy⟩ = false ∧
      (checkDirection b pos player dx dy).length = m + n + 1 := by
  obtain ⟨n, hlistF, hallF, hendF⟩ := walkArm_max b player dx dy
    (pos.x + dx) (pos.y + dy) hstopF
  obtain ⟨m, hlistB, hallB, hendB⟩ := walkArm_max b player (-dx) (-dy)
    (pos.x - dx) (pos.y - dy) hstopB
  refine ⟨m, n, ?_, hallB, hallF, hendB, hendF, ?_⟩
  · rw [checkDirection, hlistF, hlistB]
  · rw [checkDirection, hlistF, hlistB]
    simp [List.length_append, List.length_reverse, List.length_map,
      List.length_range]
    omega

theorem checkWin_cases (b : Board) (pos : Position) (player : Player) :
    (checkWin b pos player = { winner := none, winningLine := [] } ∧
      ∀ d ∈ directions, (checkDirection b pos player d.1 d.2).length < 5) ∨
    (∃ dx dy : Int, (dx, dy) ∈ directions ∧
      5 ≤ (checkDirection b pos player dx dy).length ∧
      checkWin b pos player =
        { winner := some player,
          winningLine := checkDirection b pos player dx dy }) := by
  simp only [checkWin, directions, checkWinAux]
  split
  · next h1 => exact Or.inr ⟨1, 0, by simp [directions], h1, rfl⟩
  · next h1 =>
    split
    · next h2 => exact Or.inr ⟨0, 1, by simp [directions], h2, rfl⟩
    · next h2 =>
      split
      · next h3 => exact Or.inr ⟨1, 1, by simp [directions], h3, rfl⟩
      · next h3 =>
        split
        · next h4 => exact Or.inr ⟨1, -1, by simp [directions], h4, rfl⟩
        · next h4 =>
          refine Or.inl ⟨rfl, ?_⟩
          intro d hd
          simp only [directions, List.mem_cons, List.not_mem_nil, or_false]
            at hd
          rcases hd with rfl | rfl | rfl | rfl <;> (dsimp only; omega)

theorem checkDirection_max_of_valid (b : Board) (pos : Position)
    (player : Player) (dx dy : Int) (hd : (dx, dy) ∈ directions)
    (hv : b.isValidPosition pos = true) :
    ∃ m n : Nat,
      checkDirection b pos player dx dy =
        ((List.range m).map
          (fun i : Nat =>
            (⟨pos.x - dx + (i : Int) * (-dx), pos.y - dy + (i : Int) * (-dy)⟩ :
              Position))).reverse ++
          pos :: (List.range n).map
            (fun i : Nat =>
              (⟨pos.x + dx + (i : Int) * dx, pos.y + dy + (i : Int) * dy⟩ :
                Position)) ∧
      (∀ i : Nat, i < m →
        cellOk b player
          ⟨pos.x - dx + (i : Int) * (-dx), pos.y - dy + (i : Int) * (-dy)⟩ = true) ∧
      (∀ i : Nat, i < n →
        cellOk b player
          ⟨pos.x + dx + (i : Int) * dx, pos.y + dy + (i : Int) * dy⟩ = true) ∧
      cellOk b player
        ⟨pos.x - dx + (m : Int) * (-dx), pos.y - dy + (m : Int) * (-dy)⟩ = false ∧
      cellOk b player
        ⟨pos.x + dx + (n : Int) * dx, pos.y + dy + (n : Int) * dy⟩ = false ∧
      (checkDirection b pos player dx dy).length = m + n + 1 := by
  obtain ⟨hx0, hxs, hy0, hys⟩ := isValid_bounds hv
  simp only [directions, List.mem_cons, List.not_mem_nil, or_false,
    Prod.mk.injEq] at hd
  rcases hd with ⟨rfl, rfl⟩ | ⟨rfl, rfl⟩ | ⟨rfl, rfl⟩ | ⟨rfl, rfl⟩ <;>
    exact checkDirection_max b pos player _ _
      (isValid_false_of (by dsimp only; omega))
      (isValid_false_of (by dsimp only; omega))

theorem board_recordPlacedMove (g : GomokuGame) (pos : Position) (r : Rand)
    (b1 : Board) : (recordPlacedMove g pos r b1).board = b1 := by
  simp only [recordPlacedMove]
  split <;> rfl

theorem currentPlayer_recordPlacedMove (g : GomokuGame) (pos : Position)
    (r : Rand) (b1 : Board) :
    (recordPlacedMove g pos r b1).currentPlayer = g.currentPlayer := by
  simp only [recordPlacedMove]
  split <;> rfl

theorem makeMove_win (g : GomokuGame) (pos : Position) (r : Rand) (b1 : Board)
    (hplay : g.gameState = GameState.playing)
    (hpve : ¬ (g.config.mode = GameMode.pve ∧
      g.currentPlayer ≠ g.config.playerColor))
    (hsub : ¬ g.gameSubState = GameSubState.selectingStrikeTarget)
    (hallow : ¬ (g.allowedPositions ≠ [] ∧
      ¬ isAllowedPosition g.allowedPositions pos = true))
    (hplace : g.board.placeStone pos g.currentPlayer r.now = (true, b1))
    (hwin : (checkWin b1 pos g.currentPlayer).winner.isSome = true) :
    makeMove g pos r =
      (true, finishWithResult (recordPlacedMove g pos r b1)
        (checkWin b1 pos g.currentPlayer)) ∧
    (makeMove g pos r).1 = true ∧
    (makeMove g pos r).2.gameState = GameState.over ∧
    (makeMove g pos r).2.gameResult = some (checkWin b1 pos g.currentPlayer) := by
  have hM : makeMove g pos r = makeMovePlaced g pos r b1 := by
    simp only [makeMove]
    rw [if_neg (fun hc => hc hplay), if_neg hpve, if_neg hsub, if_neg hallow,
      hplace]
  have hM2 : makeMovePlaced g pos r b1 =
      (true, finishWithResult (recordPlacedMove g pos r b1)
        (checkWin b1 pos g.currentPlayer)) := by
    simp only [makeMovePlaced, board_recordPlacedMove,
      currentPlayer_recordPlacedMove]
    rw [if_pos hwin]
  have hMM := hM.trans hM2
  refine ⟨hMM, ?_, ?_, ?_⟩ <;> rw [hMM] <;> rfl

theorem aiPlace_win (g : GomokuGame) (best : Position) (r : Rand)
    (hwin : (checkWin (g.board.placeStone best g.currentPlayer r.now).2 best
      g.currentPlayer).winner.isSome = true) :
    (aiPlaceAndFinish g best r).gameState = GameState.over ∧
    (aiPlaceAndFinish g best r).gameResult =
      some (checkWin (g.board.placeStone best g.currentPlayer r.now).2 best
        g.currentPlayer) := by
  simp only [aiPlaceAndFinish]
  rw [if_pos hwin]
  exact ⟨rfl, rfl⟩

/-- C1.  After a placement the engine walks, for each of the 4 axes, the
maximal contiguous same-player run through the placed cell (contiguous cells
on both sides hold the player's stone and both end cells beyond the run do
not); the first axis whose run has length at least 5 wins with the ENTIRE run
as the winning line, else no winner; a winning `makeMove` (and the AI
placement path) ends the game with that result. -/
theorem win_detection_spec :
    (∀ (b : Board) (pos : Position) (player : Player) (dx dy : Int),
      (dx, dy) ∈ directions → b.isValidPosition pos = true →
      ∃ m n : Nat,
        checkDirection b pos player dx dy =
          ((List.range m).map
            (fun i : Nat =>
              (⟨pos.x - dx + (i : Int) * (-dx), pos.y - dy + (i : Int) * (-dy)⟩ :
                Position))).reverse ++
            pos :: (List.range n).map
              (fun i : Nat =>
                (⟨pos.x + dx + (i : Int) * dx, pos.y + dy + (i : Int) * dy⟩ :
                  Position)) ∧
        (∀ i : Nat, i < m →
          cellOk b player
            ⟨pos.x - dx + (i : Int) * (-dx), pos.y - dy + (i : Int) * (-dy)⟩ =
              true) ∧
        (∀ i : Nat, i < n →
          cellOk b player
            ⟨pos.x + dx + (i : Int) * dx, pos.y + dy + (i : Int) * dy⟩ = true) ∧
        cellOk b player
          ⟨pos.x - dx + (m : Int) * (-dx), pos.y - dy + (m : Int) * (-dy)⟩ =
            false ∧
        cellOk b player
          ⟨pos.x + dx + (n : Int) * dx, pos.y + dy + (n : Int) * dy⟩ = false ∧
        (checkDirection b pos player dx dy).length = m + n + 1) ∧
    (∀ (b : Board) (pos : Position) (player : Player),
      (checkWin b pos player = { winner := none, winningLine := [] } ∧
        ∀ d ∈ directions, (checkDirection b pos player d.1 d.2).length < 5) ∨
      (∃ dx dy : Int, (dx, dy) ∈ directions ∧
        5 ≤ (checkDirection b pos player dx dy).length ∧
        checkWin b pos player =
          { winner := some player,
            winningLine := checkDirection b pos player dx dy })) ∧
    (∀ (g : GomokuGame) (pos : Position) (r : Rand) (b1 : Board),
      g.gameState = GameState.playing →
      ¬ (g.config.mode = GameMode.pve ∧
        g.currentPlayer ≠ g.config.playerColor) →
      ¬ g.gameSubState = GameSubState.selectingStrikeTarget →
      ¬ (g.allowedPositions ≠ [] ∧
        ¬ isAllowedPosition g.allowedPositions pos = true) →
      g.board.placeStone pos g.currentPlayer r.now = (true, b1) →
      (checkWin b1 pos g.currentPlayer).winner.isSome = true →
      makeMove g pos r =
        (true, finishWithResult (recordPlacedMove g pos r b1)
          (checkWin b1 pos g.currentPlayer)) ∧
      (makeMove g pos r).1 = true ∧
      (makeMove g pos r).2.gameState = GameState.over ∧
      (makeMove g pos r).2.gameResult =
        some (checkWin b1 pos g.currentPlayer)) ∧
    (∀ (g : GomokuGame) (best : Position) (r : Rand),
      (checkWin (g.board.placeStone best g.currentPlayer r.now).2 best
        g.currentPlayer).winner.isSome = true →
      (aiPlaceAndFinish g best r).gameState = GameState.over ∧
      (aiPlaceAndFinish g best r).gameResult =
        some (checkWin (g.board.placeStone best g.currentPlayer r.now).2 best
          g.currentPlayer)) :=
  ⟨checkDirection_max_of_valid, checkWin_cases,
   fun g pos r b1 h1 h2 h3 h4 h5 h6 => makeMove_win g pos r b1 h1 h2 h3 h4 h5 h6,
   fun g best r hwin => aiPlace_win g best r hwin⟩

/-- Witness for C1 at a concrete input: BLACK completes (0,0)..(0,4) on
`winDemoGame`; the game ends with winner BLACK and exactly those five cells
as the winning line. -/
theorem win_detection_spec_witness :
    (makeMove winDemoGame ⟨0, 0⟩ demoRand).1 = true ∧
    (makeMove winDemoGame ⟨0, 0⟩ demoRand).2.gameState = GameState.over ∧
    (makeMove winDemoGame ⟨0, 0⟩ demoRand).2.gameResult =
      some { winner := some Player.black,
             winningLine := [⟨0, 0⟩, ⟨0, 1⟩, ⟨0, 2⟩, ⟨0, 3⟩, ⟨0, 4⟩] } := by
  have h := win_detection_spec.2.2.1 winDemoGame ⟨0, 0⟩ demoRand
    (winDemoGame.board.placeStone ⟨0, 0⟩ winDemoGame.currentPlayer demoRand.now).2
    rfl (by decide) (by decide) (by decide) (by decide) (by decide)
  refine ⟨h.2.1, h.2.2.1, ?_⟩
  rw [h.2.2.2]
  decide

end Gomoku
